import Mathlib

/-!
# A shallow embedding of `ls.c`

The program lists one directory: it parses its flags, opens the directory,
passes every entry through a chain of selection filters, and either prints
the selected entries at once (`-u`) or copies them into a growable buffer
that is sorted with `qsort` and printed afterwards.

The global variables of the C file are the fields of `State`.  Functions that
may call `exit` return `Except Halt State`; the C library and the operating
system (`getopt`, `opendir`/`readdir`, `calloc`/`reallocarray`, `qsort`,
`strerror`) are the fields of `Env`.
-/

namespace Ls

/-! ## C strings and directory entries -/

/-- The terminating zero byte of a C string. -/
def NUL : Char := Char.ofNat 0

/-- The line feed written by the format string of `print_name`. -/
def LF : Char := Char.ofNat 10

/-- The entry type `struct dirent`; the program reads only the character array
`d_name`.  The list holds the bytes of the array from index 0 on, and every
cell past the end of the list is zero. -/
structure dirent where
  d_name : List Char
deriving DecidableEq

/-- The cell `s[i]` of a character array. -/
def char_at (s : List Char) (i : Nat) : Char := s.getD i NUL

/-- The C string held in a character array: the bytes before the first zero
byte.  It is what the conversion `%s` prints. -/
def c_str (s : List Char) : List Char := s.takeWhile (fun c => c != NUL)

/-- The library function `tolower` in the C locale (ASCII case folding), on the
byte value of a character. -/
def tolower (c : Char) : Nat :=
  if 65 ≤ c.toNat ∧ c.toNat ≤ 90 then c.toNat + 32 else c.toNat

/-- The library function `strcasecmp`: both strings are read byte by byte
through `tolower` until the bytes differ or the first string ends; the result
is the difference of the two bytes read last. -/
def strcasecmp : List Char → List Char → Int
  | [], s2 => (tolower NUL : Int) - (tolower (char_at s2 0) : Int)
  | a :: s1, s2 =>
    if tolower a = 0 then (tolower a : Int) - (tolower (char_at s2 0) : Int)
    else if tolower a = tolower (char_at s2 0) then strcasecmp s1 s2.tail
    else (tolower a : Int) - (tolower (char_at s2 0) : Int)

/-! ## Constants and function-pointer types -/

def DISPLAY_BUF_INITIAL_NUM_BLOCKS : Nat := 8

def EXIT_SUCCESS : Int := 0

def EXIT_FAILURE : Int := 1

/-- The value of `errno` after a failed allocation. -/
def ENOMEM : Nat := 12

def CWD_SHORT : List Char := ['.']

/-- The type `Selector`, a pointer to a function from an entry to a truth value. -/
abbrev Selector := dirent → Bool

/-- The type `Printer`; `print_name` is the only printer of the program. -/
inductive Printer where
  | print_name
deriving DecidableEq

/-- The type `Handler`: the two functions `g_handler` can point to. -/
inductive Handler where
  | add_to_display_buffer
  | print_name
deriving DecidableEq

/-- The assignment of a `Printer` to a `Handler` variable (both are pointers
to functions from an entry to nothing). -/
def Printer.toHandler : Printer → Handler
  | Printer.print_name => Handler.print_name

/-- The two output streams a usage message can go to. -/
inductive OutStream where
  | stdout
  | stderr
deriving DecidableEq

/-! ## The sorter -/

/-- The comparison function handed to `qsort`. -/
def compare_entries (first second : dirent) : Int :=
  strcasecmp first.d_name second.d_name

/-- What the C standard asks of a comparison function given to `qsort`: any two
elements are comparable and the order is transitive. -/
def Consistent (cmp : dirent → dirent → Int) : Prop :=
  (∀ a b, cmp a b ≤ 0 ∨ cmp b a ≤ 0) ∧
  (∀ a b c, cmp a b ≤ 0 → cmp b c ≤ 0 → cmp a c ≤ 0)

/-- The library function `qsort` on an array of entries.  The C standard fixes
no algorithm: the array is rearranged, and it is in ascending order afterwards
when the comparison function is consistent.  Nothing is promised about the
order of elements that compare equal. -/
structure Qsort where
  sort : (dirent → dirent → Int) → List dirent → List dirent
  perm : ∀ cmp l, (sort cmp l).Perm l
  sorted : ∀ cmp, Consistent cmp → ∀ l, (sort cmp l).Pairwise (fun a b => cmp a b ≤ 0)

/-- One `qsort` that meets the contract: insertion sort. -/
def insertion_qsort : Qsort where
  sort := fun cmp l => l.insertionSort (fun a b => cmp a b ≤ 0)
  perm := fun cmp l => List.perm_insertionSort (fun a b => cmp a b ≤ 0) l
  sorted := fun cmp h l =>
    haveI : IsTotal dirent (fun a b => cmp a b ≤ 0) := ⟨h.1⟩
    haveI : IsTrans dirent (fun a b => cmp a b ≤ 0) := ⟨h.2⟩
    List.sorted_insertionSort (fun a b => cmp a b ≤ 0) l

/-! ## The environment and the program state -/

/-- An open directory stream `DIR`: its handle and the entries that the
successive calls of `readdir` return before the first null pointer (the end of
the directory, or a read error, which the program does not tell apart). -/
structure DIR where
  handle : Nat
  entries : List dirent

/-- The C library and the operating system as the program sees them. -/
structure Env where
  /-- Width of `size_t` in bits. -/
  size_bits : Nat
  /-- The C standard makes `size_t` at least 16 bits wide. -/
  size_bits_ge : 16 ≤ size_bits
  /-- The run of `getopt(argc, argv, "ahnu")`: the option characters it returns
  before it returns -1, and the value of `optind` it leaves. -/
  getopt : Int → List (List Char) → List Char × Int
  /-- The vector `argv` as that run of `getopt` leaves it: `getopt` may rearrange
  the vector in place (glibc moves the arguments that are not options behind the
  options), and `finish_args` reads it afterwards. -/
  getopt_argv : Int → List (List Char) → List (List Char)
  /-- The rearrangement never moves `argv[0]`, the program name. -/
  getopt_argv_zero : ∀ argc argv, (getopt_argv argc argv).getD 0 [] = argv.getD 0 []
  /-- The diagnostic that call number `i` of `getopt` writes to standard error
  when it meets an option character that is not in `"ahnu"` (`opterr` is never
  cleared); a call that returns one of `a`, `h`, `n`, `u` writes nothing. -/
  getopt_diag : Int → List (List Char) → Nat → List Char
  /-- The call `opendir(name)`: the stream, or the value of `errno`. -/
  opendir : List Char → Except Nat DIR
  strerror : Nat → List Char
  /-- The value of `sizeof(struct dirent)`. -/
  sizeof_dirent : Nat
  /-- The entry type holds a name array of several bytes. -/
  sizeof_dirent_ge : 2 ≤ sizeof_dirent
  /-- The calls `calloc(n, sizeof(struct dirent))` and
  `reallocarray(p, n, sizeof(struct dirent))`: the address of the block, or
  `none` for the null pointer.  A run asks for each size at most once (8, then
  each doubling), so the outcome is given by the size. -/
  alloc : Nat → Option Nat
  /-- Both calls return the null pointer when the byte count `n * sizeof(struct dirent)`
  does not fit in `size_t`. -/
  alloc_fits : ∀ n p, alloc n = some p → n * sizeof_dirent < 2 ^ size_bits
  /-- The content of cell `i` of a block that `reallocarray` has grown, before the
  program writes it. -/
  garbage : Nat → dirent
  qsort : Qsort

/-- Calls of library functions that release a resource, and the entry into
`free_resources`, in the order the program makes them. -/
inductive Event where
  | free_resources
  | closedir (handle : Nat)
  | free (address : Nat)
deriving DecidableEq

/-- The record `struct Resources`; `none` is the null pointer. -/
structure Resources where
  directory : Option Nat
  display_buffer : Option Nat
deriving DecidableEq

/-- The global variables of the program, the cells of the block
`g_display_buffer` points to (`heap`), the chunks written to the two output
streams (one per call of `printf`, `fprintf` or `fputs`), and the trace of
release events. -/
structure State where
  g_resources : Resources
  g_directory_name : List Char
  opt_show_dot_dirs : Bool
  opt_no_dotfiles : Bool
  opt_unordered : Bool
  g_selection_filters : List (Option Selector)
  g_num_selection_filters : Nat
  g_printer : Printer
  g_handler : Handler
  g_display_buffer : Option Nat
  g_display_buffer_size : Nat
  g_num_entries_in_buffer : Nat
  heap : List dirent
  stdout : List (List Char)
  stderr : List (List Char)
  trace : List Event

/-- The state at program start: the initialisers of the global variables. -/
def State.start : State where
  g_resources := ⟨none, none⟩
  g_directory_name := CWD_SHORT
  opt_show_dot_dirs := false
  opt_no_dotfiles := false
  opt_unordered := false
  g_selection_filters := [none, none]
  g_num_selection_filters := 0
  g_printer := Printer.print_name
  g_handler := Handler.add_to_display_buffer
  g_display_buffer := none
  g_display_buffer_size := 0
  g_num_entries_in_buffer := 0
  heap := []
  stdout := []
  stderr := []
  trace := []

/-- The end of the process: the status given to `exit` and the state then. -/
structure Halt where
  status : Int
  state : State

/-! ## Resource release and exit -/

def free_resources (s : State) : State :=
  let s := { s with trace := s.trace ++ [Event.free_resources] }
  let s := match s.g_resources.directory with
    | some d => { s with trace := s.trace ++ [Event.closedir d] }
    | none => s
  match s.g_resources.display_buffer with
  | some p => { s with trace := s.trace ++ [Event.free p] }
  | none => s

def free_and_exit (status_code : Int) (s : State) : Halt :=
  ⟨status_code, free_resources s⟩

/-! ## Selection filters -/

def not_starting_with_dot (entry : dirent) : Bool :=
  char_at entry.d_name 0 != '.'

def no_dot_dir (entry : dirent) : Bool :=
  if not_starting_with_dot entry then true
  else if char_at entry.d_name 1 = NUL then false
  else if char_at entry.d_name 1 = '.' then char_at entry.d_name 2 != NUL
  else true

/-- The loop of `gets_selected`: `k` iterations are left and `i` is the loop
index. -/
def gets_selected_loop (s : State) (entry : dirent) : Nat → Nat → Bool
  | 0, _ => true
  | k + 1, i =>
    match s.g_selection_filters.getD i none with
    | some filter => if !filter entry then false else gets_selected_loop s entry k (i + 1)
    | none => gets_selected_loop s entry k (i + 1)

def gets_selected (s : State) (entry : dirent) : Bool :=
  gets_selected_loop s entry s.g_num_selection_filters 0

def add_selection_filter (filter : Selector) (s : State) : State :=
  { s with
    g_selection_filters := s.g_selection_filters.set s.g_num_selection_filters (some filter)
    g_num_selection_filters := s.g_num_selection_filters + 1 }

/-! ## Argument parsing -/

/-- The text `Usage: %s [-ahnu] [directory_name]` and a line feed, with `argv[0]`
for `%s`. -/
def usage_msg (argv : List (List Char)) : List Char :=
  "Usage: ".toList ++ c_str (argv.getD 0 []) ++ " [-ahnu] [directory_name]".toList ++ [LF]

def print_usage_msg (output_stream : OutStream) (argv : List (List Char)) (s : State) : State :=
  match output_stream with
  | OutStream.stdout => { s with stdout := s.stdout ++ [usage_msg argv] }
  | OutStream.stderr => { s with stderr := s.stderr ++ [usage_msg argv] }

def fail_with_usage_msg (argv : List (List Char)) (s : State) : Halt :=
  ⟨EXIT_FAILURE, print_usage_msg OutStream.stderr argv s⟩

def finish_args (argc : Int) (argv : List (List Char)) (optind : Int) (s : State) :
    Except Halt State := do
  let s ←
    if optind = argc - 1 then
      pure { s with g_directory_name := argv.getD optind.toNat [] }
    else if optind < argc then
      throw (fail_with_usage_msg argv s)
    else pure s
  let s := if !s.opt_show_dot_dirs then add_selection_filter no_dot_dir s else s
  let s := if s.opt_no_dotfiles then add_selection_filter not_starting_with_dot s else s
  let s := if s.opt_unordered then { s with g_handler := s.g_printer.toHandler } else s
  pure s

/-- The `while` loop of `parse_args` over the option characters `getopt`
returns; `i` is the number of the call of `getopt` and `diag i` the diagnostic
that call writes when the option is not recognised. Inside the loop only
`argv[0]` is read, which `getopt` never moves. -/
def parse_args_loop (diag : Nat → List Char) (argv : List (List Char)) :
    Nat → List Char → State → Except Halt State
  | _, [], s => pure s
  | i, opt :: rest, s =>
    if opt = 'a' then parse_args_loop diag argv (i + 1) rest { s with opt_show_dot_dirs := true }
    else if opt = 'h' then throw ⟨EXIT_SUCCESS, print_usage_msg OutStream.stdout argv s⟩
    else if opt = 'n' then parse_args_loop diag argv (i + 1) rest { s with opt_no_dotfiles := true }
    else if opt = 'u' then parse_args_loop diag argv (i + 1) rest { s with opt_unordered := true }
    else throw (fail_with_usage_msg argv { s with stderr := s.stderr ++ [diag i] })

def parse_args (env : Env) (argc : Int) (argv : List (List Char)) (s : State) :
    Except Halt State := do
  let s ← parse_args_loop (env.getopt_diag argc argv) argv 0 (env.getopt argc argv).1 s
  finish_args argc (env.getopt_argv argc argv) (env.getopt argc argv).2 s

/-! ## The directory -/

def open_directory (env : Env) (dir_name : List Char) (s : State) :
    Except Halt (DIR × State) :=
  match env.opendir dir_name with
  | Except.ok directory =>
    pure (directory, { s with g_resources := { s.g_resources with directory := some directory.handle } })
  | Except.error errnum =>
    let s := { s with g_resources := { s.g_resources with directory := none } }
    let s := { s with stderr := s.stderr ++ [env.strerror errnum ++ [LF]] }
    throw (free_and_exit EXIT_FAILURE s)

def close_directory (directory : DIR) (s : State) : State :=
  let s := { s with trace := s.trace ++ [Event.closedir directory.handle] }
  { s with g_resources := { s.g_resources with directory := none } }

/-! ## Printing and the display buffer -/

def print_name (entry : dirent) (s : State) : State :=
  { s with stdout := s.stdout ++ [c_str entry.d_name ++ [LF]] }

/-- A cell of a block fresh from `calloc`: all bytes zero. -/
def zero_dirent : dirent := ⟨[]⟩

/-- The cells of a block after `reallocarray` has made it `n` cells long: the old
cells, then cells of unknown content. -/
def realloc_cells (env : Env) (old : List dirent) (n : Nat) : List dirent :=
  old.take n ++ (List.range (n - old.length)).map (fun i => env.garbage (old.length + i))

def init_display_buffer (env : Env) (s : State) : Except Halt State :=
  match env.alloc DISPLAY_BUF_INITIAL_NUM_BLOCKS with
  | none =>
    let s := { s with g_display_buffer := none }
    let s := { s with stderr := s.stderr ++ ["calloc: ".toList ++ env.strerror ENOMEM ++ [LF]] }
    throw (free_and_exit EXIT_FAILURE s)
  | some p =>
    pure { s with
      g_display_buffer := some p
      heap := List.replicate DISPLAY_BUF_INITIAL_NUM_BLOCKS zero_dirent
      g_display_buffer_size := DISPLAY_BUF_INITIAL_NUM_BLOCKS
      g_resources := { s.g_resources with display_buffer := some p } }

def redouble_display_buffer (env : Env) (s : State) : Except Halt State :=
  let new_buffer_size := (2 * s.g_display_buffer_size) % 2 ^ env.size_bits
  if new_buffer_size ≤ s.g_display_buffer_size then
    let s := { s with stderr := s.stderr ++ ["add_to_display_buffer: overflow".toList ++ [LF]] }
    throw (free_and_exit EXIT_FAILURE s)
  else
    match env.alloc new_buffer_size with
    | none =>
      let s := { s with stderr := s.stderr ++ ["reallocarray: ".toList ++ env.strerror ENOMEM ++ [LF]] }
      throw (free_and_exit EXIT_FAILURE s)
    | some p =>
      pure { s with
        g_display_buffer := some p
        heap := realloc_cells env s.heap new_buffer_size
        g_display_buffer_size := new_buffer_size
        g_resources := { s.g_resources with display_buffer := some p } }

def add_to_display_buffer (env : Env) (entry : dirent) (s : State) : Except Halt State := do
  let s ←
    if s.g_display_buffer.isNone then init_display_buffer env s
    else if s.g_num_entries_in_buffer = s.g_display_buffer_size then redouble_display_buffer env s
    else pure s
  pure { s with
    heap := s.heap.set s.g_num_entries_in_buffer entry
    g_num_entries_in_buffer := (s.g_num_entries_in_buffer + 1) % 2 ^ env.size_bits }

/-- A call through the pointer `g_printer`. -/
def call_printer (p : Printer) (entry : dirent) (s : State) : State :=
  match p with
  | Printer.print_name => print_name entry s

/-- A call through the pointer `g_handler`. -/
def call_handler (env : Env) (h : Handler) (entry : dirent) (s : State) : Except Halt State :=
  match h with
  | Handler.add_to_display_buffer => add_to_display_buffer env entry s
  | Handler.print_name => pure (print_name entry s)

/-- The printing loop of `display_buffered_entries`: `k` iterations are left and
`i` is the loop index. -/
def display_loop : Nat → Nat → State → State
  | 0, _, s => s
  | k + 1, i, s => display_loop k (i + 1) (call_printer s.g_printer (s.heap.getD i zero_dirent) s)

def display_buffered_entries (env : Env) (s : State) : State :=
  if s.g_display_buffer.isSome then
    let n := s.g_num_entries_in_buffer
    let s := { s with heap := env.qsort.sort compare_entries (s.heap.take n) ++ s.heap.drop n }
    display_loop s.g_num_entries_in_buffer 0 s
  else s

/-! ## Enumeration and `main` -/

/-- The loop of `read_entries` over the entries `readdir` returns. -/
def read_entries_loop (env : Env) : List dirent → State → Except Halt State
  | [], s => pure s
  | entry :: rest, s =>
    if gets_selected s entry then do
      let s ← call_handler env s.g_handler entry s
      read_entries_loop env rest s
    else read_entries_loop env rest s

def read_entries (env : Env) (directory : DIR) (s : State) : Except Halt State :=
  read_entries_loop env directory.entries s

def main (env : Env) (argc : Int) (argv : List (List Char)) : Halt :=
  match parse_args env argc argv State.start with
  | Except.error h => h
  | Except.ok s =>
    match open_directory env s.g_directory_name s with
    | Except.error h => h
    | Except.ok (directory, s) =>
      match read_entries env directory s with
      | Except.error h => h
      | Except.ok s =>
        let s := close_directory directory s
        let s := display_buffered_entries env s
        free_and_exit EXIT_SUCCESS s

/-! ## Vocabulary of the statements -/

/-- The chunk `print_name` writes for an entry: its name and a line feed. -/
def line (entry : dirent) : List Char := c_str entry.d_name ++ [LF]

/-- The calls of `add_to_display_buffer` on each entry of a sequence in turn. -/
def append_all (env : Env) : List dirent → State → Except Halt State
  | [], s => pure s
  | entry :: rest, s => do
    let s ← add_to_display_buffer env entry s
    append_all env rest s

/-- No allocation fails while `N` entries are appended to the display buffer:
the allocator grants the request for 8 cells and each request for `8 * 2 ^ j`
cells that is made because more than `8 * 2 ^ (j - 1)` entries arrive. -/
def NoAllocFailure (env : Env) (N : Nat) : Prop :=
  ∀ j, 0 < N → (j = 0 ∨ 8 * 2 ^ (j - 1) < N) → (env.alloc (8 * 2 ^ j)).isSome = true

/-- The display buffer of `s` holds the entries `l`, in this order, in its first
cells: the entry count is the length of `l`, no block is allocated exactly when
`l` is empty, and an allocated block has `8 * 2 ^ k` cells for the least `k`
that makes room for `l`, a size the allocator has granted. -/
def BufInv (env : Env) (s : State) (l : List dirent) : Prop :=
  s.g_num_entries_in_buffer = l.length ∧
  (s.g_display_buffer = none → l = []) ∧
  (s.g_display_buffer ≠ none →
    l ≠ [] ∧ s.heap.length = s.g_display_buffer_size ∧ s.heap.take l.length = l ∧
    s.g_display_buffer_size * env.sizeof_dirent < 2 ^ env.size_bits ∧
    ∃ k, s.g_display_buffer_size = 8 * 2 ^ k ∧ (k = 0 ∨ 8 * 2 ^ (k - 1) < l.length))

/-- The state `t` differs from `s` in the display buffer only. -/
def SameOutsideBuffer (s t : State) : Prop :=
  t = { s with
    g_display_buffer := t.g_display_buffer
    heap := t.heap
    g_display_buffer_size := t.g_display_buffer_size
    g_num_entries_in_buffer := t.g_num_entries_in_buffer
    g_resources := { s.g_resources with display_buffer := t.g_resources.display_buffer } }

/-- The resource record knows the block of the display buffer: the pointer
`g_resources.display_buffer` equals `g_display_buffer`. -/
def Tracked (s : State) : Prop :=
  s.g_resources.display_buffer = s.g_display_buffer

/-- The state `t` agrees with `s` on the release trace, the directory slot of the
resource record, the handler, the printer and the filter chain. -/
def SameControl (s t : State) : Prop :=
  t.trace = s.trace ∧ t.g_resources.directory = s.g_resources.directory ∧
  t.g_handler = s.g_handler ∧ t.g_printer = s.g_printer ∧
  t.g_selection_filters = s.g_selection_filters ∧
  t.g_num_selection_filters = s.g_num_selection_filters

/-- The calls of `free` that release the block `b` (none for the null pointer). -/
def frees (b : Option Nat) : List Event :=
  match b with
  | some p => [Event.free p]
  | none => []

/-- The name of an entry after ASCII case folding. -/
def folded (entry : dirent) : List Nat := (c_str entry.d_name).map tolower

/-- The state in which `parse_args` returns, by the flags seen and the directory
name chosen. -/
def configured (a n u : Bool) (dir_name : List Char) : State :=
  { State.start with
    g_directory_name := dir_name
    opt_show_dot_dirs := a
    opt_no_dotfiles := n
    opt_unordered := u
    g_selection_filters :=
      if a then (if n then [some not_starting_with_dot, none] else [none, none])
      else (if n then [some no_dot_dir, some not_starting_with_dot] else [some no_dot_dir, none])
    g_num_selection_filters := (if a then 0 else 1) + (if n then 1 else 0)
    g_handler := if u then Handler.print_name else Handler.add_to_display_buffer }

/-- The directory of the scenario in the specification. -/
def sample_dir : List dirent :=
  [⟨".".toList⟩, ⟨"..".toList⟩, ⟨".hidden".toList⟩, ⟨"Banana".toList⟩, ⟨"apple".toList⟩]

/-- Nine entries named `a` to `i`: one more than the first block holds. -/
def nine_entries : List dirent :=
  (List.range 9).map (fun i => ⟨[Char.ofNat (97 + i)]⟩)

/-- An environment for concrete runs: 64-bit `size_t`, an allocator that grants
every request that fits, insertion sort for `qsort`, and one directory (the
name is not looked at) with the given entries. -/
def sample_env (opts : List Char) (optind : Int) (entries : List dirent) : Env where
  size_bits := 64
  size_bits_ge := by decide
  getopt := fun _ _ => (opts, optind)
  getopt_argv := fun _ argv => argv
  getopt_argv_zero := fun _ _ => rfl
  getopt_diag := fun _ argv _ =>
    c_str (argv.getD 0 []) ++ ": invalid option".toList ++ [LF]
  opendir := fun _ => Except.ok ⟨3, entries⟩
  strerror := fun _ => []
  sizeof_dirent := 280
  sizeof_dirent_ge := by decide
  alloc := fun n => if n * 280 < 2 ^ 64 then some 4096 else none
  alloc_fits := fun n p h => by
    have h1 : (if n * 280 < 2 ^ 64 then some 4096 else none) = some p := h
    by_contra hn
    rw [if_neg hn] at h1
    cases h1
  garbage := fun _ => ⟨['?']⟩
  qsort := insertion_qsort

/-- The sample environment with an allocator that grants a request for at most
`limit` cells only. -/
def sample_env_limited (limit : Nat) (opts : List Char) (optind : Int)
    (entries : List dirent) : Env where
  size_bits := 64
  size_bits_ge := by decide
  getopt := fun _ _ => (opts, optind)
  getopt_argv := fun _ argv => argv
  getopt_argv_zero := fun _ _ => rfl
  getopt_diag := fun _ argv _ =>
    c_str (argv.getD 0 []) ++ ": invalid option".toList ++ [LF]
  opendir := fun _ => Except.ok ⟨3, entries⟩
  strerror := fun _ => []
  sizeof_dirent := 280
  sizeof_dirent_ge := by decide
  alloc := fun n => if n ≤ limit ∧ n * 280 < 2 ^ 64 then some 4096 else none
  alloc_fits := fun n p h => by
    have h1 : (if n ≤ limit ∧ n * 280 < 2 ^ 64 then some 4096 else none) = some p := h
    by_contra hn
    rw [if_neg (fun hc => hn hc.2)] at h1
    cases h1
  garbage := fun _ => ⟨['?']⟩
  qsort := insertion_qsort

/-- The sample environment with a `getopt` that rearranges the vector `original`
into `permuted` and leaves every other vector as it is. -/
def sample_env_permuting (original permuted : List (List Char))
    (hzero : permuted.getD 0 [] = original.getD 0 []) (opts : List Char) (optind : Int)
    (entries : List dirent) : Env where
  size_bits := 64
  size_bits_ge := by decide
  getopt := fun _ _ => (opts, optind)
  getopt_argv := fun _ argv => if argv = original then permuted else argv
  getopt_argv_zero := fun _ argv => by
    show (if argv = original then permuted else argv).getD 0 [] = argv.getD 0 []
    by_cases h : argv = original
    · rw [if_pos h, h]
      exact hzero
    · rw [if_neg h]
  getopt_diag := fun _ argv _ =>
    c_str (argv.getD 0 []) ++ ": invalid option".toList ++ [LF]
  opendir := fun _ => Except.ok ⟨3, entries⟩
  strerror := fun _ => []
  sizeof_dirent := 280
  sizeof_dirent_ge := by decide
  alloc := fun n => if n * 280 < 2 ^ 64 then some 4096 else none
  alloc_fits := fun n p h => by
    have h1 : (if n * 280 < 2 ^ 64 then some 4096 else none) = some p := h
    by_contra hn
    rw [if_neg hn] at h1
    cases h1
  garbage := fun _ => ⟨['?']⟩
  qsort := insertion_qsort

/-! ## Case-insensitive comparison -/

theorem tolower_NUL : tolower NUL = 0 := by decide

theorem char_at_nil (i : Nat) : char_at [] i = NUL := rfl
theorem char_at_cons_zero (a : Char) (s : List Char) : char_at (a :: s) 0 = a := rfl
theorem char_at_cons_succ (a : Char) (s : List Char) (i : Nat) :
    char_at (a :: s) (i + 1) = char_at s i := rfl

theorem strcasecmp_swap (a : List Char) : ∀ b, strcasecmp b a = - strcasecmp a b := by
  induction a with
  | nil =>
    intro b
    cases b with
    | nil => simp [strcasecmp, char_at_nil, tolower_NUL]
    | cons y ys =>
      simp only [strcasecmp, char_at_nil, char_at_cons_zero, tolower_NUL]
      split_ifs <;> simp_all [strcasecmp, char_at_nil, tolower_NUL]
  | cons x xs ih =>
    intro b
    cases b with
    | nil =>
      simp only [strcasecmp, char_at_nil, char_at_cons_zero, tolower_NUL]
      split_ifs <;> simp_all [strcasecmp, char_at_nil, tolower_NUL]
    | cons y ys =>
      simp only [strcasecmp, char_at_cons_zero, List.tail_cons]
      have := ih ys
      split_ifs <;> omega

theorem strcasecmp_trans (a : List Char) :
    ∀ b c, strcasecmp a b ≤ 0 → strcasecmp b c ≤ 0 → strcasecmp a c ≤ 0 := by
  induction a with
  | nil =>
    intro b c _ _
    simp only [strcasecmp, tolower_NUL]
    omega
  | cons x xs ih =>
    intro b c
    cases b with
    | nil =>
      cases c with
      | nil =>
        simp only [strcasecmp, char_at_nil, tolower_NUL]
        split_ifs <;> intros <;> omega
      | cons z zs =>
        simp only [strcasecmp, char_at_nil, char_at_cons_zero, tolower_NUL, List.tail_cons, List.tail_nil]
        split_ifs <;> intros <;> omega
    | cons y ys =>
      cases c with
      | nil =>
        simp only [strcasecmp, char_at_nil, char_at_cons_zero, tolower_NUL, List.tail_cons, List.tail_nil]
        split_ifs <;> intros <;> omega
      | cons z zs =>
        simp only [strcasecmp, char_at_cons_zero, List.tail_cons]
        have := ih ys zs
        split_ifs <;> omega

/-! ## Argument parsing and the filter chain -/

theorem parse_args_loop_ok (diag : Nat → List Char) (argv : List (List Char))
    (opts : List Char) :
    ∀ (i : Nat) (s : State), (∀ c ∈ opts, c = 'a' ∨ c = 'n' ∨ c = 'u') →
      parse_args_loop diag argv i opts s = Except.ok
        { s with
          opt_show_dot_dirs := s.opt_show_dot_dirs || decide ('a' ∈ opts)
          opt_no_dotfiles := s.opt_no_dotfiles || decide ('n' ∈ opts)
          opt_unordered := s.opt_unordered || decide ('u' ∈ opts) } := by
  induction opts with
  | nil => intro i s _; simp [parse_args_loop, pure, Except.pure]
  | cons c rest ih =>
    intro i s h
    have hrest : ∀ c ∈ rest, c = 'a' ∨ c = 'n' ∨ c = 'u' :=
      fun x hx => h x (List.mem_cons_of_mem _ hx)
    rcases h c (List.mem_cons_self _ _) with hc | hc | hc
    · subst hc
      rw [parse_args_loop, if_pos rfl, ih _ _ hrest]
      simp
    · subst hc
      rw [parse_args_loop, if_neg (by decide), if_neg (by decide), if_pos rfl, ih _ _ hrest]
      simp [show ¬ ('a' = 'n') by decide, Bool.or_assoc]
    · subst hc
      rw [parse_args_loop, if_neg (by decide), if_neg (by decide), if_neg (by decide), if_pos rfl,
        ih _ _ hrest]
      simp [show ¬ ('a' = 'u') by decide, show ¬ ('n' = 'u') by decide]

theorem parse_args_loop_error (diag : Nat → List Char) (argv : List (List Char))
    (opts : List Char) :
    ∀ (i : Nat) (s : State), (¬ ∀ c ∈ opts, c = 'a' ∨ c = 'n' ∨ c = 'u') →
      ∃ h, parse_args_loop diag argv i opts s = Except.error h := by
  induction opts with
  | nil => intro i s h; exact absurd (fun c hc => absurd hc (List.not_mem_nil c)) h
  | cons c rest ih =>
    intro i s h
    have hrest : c = 'a' ∨ c = 'n' ∨ c = 'u' → ¬ ∀ c ∈ rest, c = 'a' ∨ c = 'n' ∨ c = 'u' := by
      intro hc hall
      apply h
      intro x hx
      rcases List.mem_cons.1 hx with rfl | hx
      · exact hc
      · exact hall x hx
    rw [parse_args_loop]
    by_cases ha : c = 'a'
    · rw [if_pos ha]; exact ih _ _ (hrest (Or.inl ha))
    · rw [if_neg ha]
      by_cases hh : c = 'h'
      · rw [if_pos hh]; exact ⟨_, rfl⟩
      · rw [if_neg hh]
        by_cases hn : c = 'n'
        · rw [if_pos hn]; exact ih _ _ (hrest (Or.inr (Or.inl hn)))
        · rw [if_neg hn]
          by_cases hu : c = 'u'
          · rw [if_pos hu]; exact ih _ _ (hrest (Or.inr (Or.inr hu)))
          · rw [if_neg hu]; exact ⟨_, rfl⟩

/-- With at most one positional argument `finish_args` returns the configured
state. -/
theorem finish_args_flags (argc : Int) (argv : List (List Char)) (optind : Int) (a n u : Bool)
    (hpos : optind = argc - 1 ∨ argc ≤ optind) :
    finish_args argc argv optind
        { State.start with opt_show_dot_dirs := a, opt_no_dotfiles := n, opt_unordered := u } =
      Except.ok (configured a n u
        (if optind = argc - 1 then argv.getD optind.toNat [] else CWD_SHORT)) := by
  unfold finish_args
  by_cases h1 : optind = argc - 1
  · simp only [if_pos h1]
    cases a <;> cases n <;> cases u <;> rfl
  · have h2 : ¬ optind < argc := by omega
    simp only [if_neg h1, if_neg h2]
    cases a <;> cases n <;> cases u <;> rfl

theorem c_str_nil : c_str [] = [] := rfl

theorem c_str_cons (a : Char) (s : List Char) :
    c_str (a :: s) = if a = NUL then [] else a :: c_str s := by
  unfold c_str
  by_cases h : a = NUL <;> simp [List.takeWhile_cons, h]

theorem dot_ne_NUL : ('.' : Char) ≠ NUL := by decide

theorem no_dot_dir_eq_false_iff (entry : dirent) :
    no_dot_dir entry = false ↔
      c_str entry.d_name = ['.'] ∨ c_str entry.d_name = ['.', '.'] := by
  obtain ⟨s⟩ := entry
  have hd := dot_ne_NUL
  unfold no_dot_dir not_starting_with_dot
  show (if (char_at s 0 != '.') = true then true
      else if char_at s 1 = NUL then false
      else if char_at s 1 = '.' then char_at s 2 != NUL else true) = false ↔
      c_str s = ['.'] ∨ c_str s = ['.', '.']
  match s with
  | [] => simp [char_at_nil, c_str_nil, Ne.symm hd]
  | [a] =>
    simp only [char_at_cons_zero, char_at_cons_succ, char_at_nil, c_str_cons, c_str_nil]
    by_cases h0 : a = NUL
    · subst h0; simp [Ne.symm hd]
    · by_cases h1 : a = '.'
      · subst h1; simp [hd]
      · simp [h0, h1]
  | [a, b] =>
    simp only [char_at_cons_zero, char_at_cons_succ, char_at_nil, c_str_cons, c_str_nil]
    by_cases h0 : a = NUL
    · subst h0; simp [Ne.symm hd]
    · by_cases h1 : a = '.'
      · subst h1
        by_cases h2 : b = NUL
        · subst h2; simp [hd]
        · by_cases h3 : b = '.'
          · subst h3; simp [hd]
          · simp [h2, h3, hd]
      · simp [h0, h1]
  | a :: b :: c :: r =>
    simp only [char_at_cons_zero, char_at_cons_succ, c_str_cons]
    by_cases h0 : a = NUL
    · subst h0; simp [Ne.symm hd]
    · by_cases h1 : a = '.'
      · subst h1
        by_cases h2 : b = NUL
        · subst h2; simp [hd]
        · by_cases h3 : b = '.'
          · subst h3
            by_cases h4 : c = NUL
            · subst h4; simp [hd]
            · simp [h4, hd]
          · simp [h2, h3, hd]
      · simp [h0, h1]

theorem not_starting_with_dot_iff (entry : dirent) :
    not_starting_with_dot entry = true ↔ (c_str entry.d_name).head? ≠ some '.' := by
  obtain ⟨s⟩ := entry
  unfold not_starting_with_dot
  cases s with
  | nil => simp [char_at_nil, c_str_nil, Ne.symm dot_ne_NUL]
  | cons a r =>
    simp only [char_at_cons_zero, c_str_cons]
    by_cases h0 : a = NUL
    · subst h0; simp [Ne.symm dot_ne_NUL]
    · simp [h0]

theorem gets_selected_configured (a n u : Bool) (dir : List Char) (entry : dirent) :
    gets_selected (configured a n u dir) entry =
      ((a || no_dot_dir entry) && (!n || not_starting_with_dot entry)) := by
  cases a <;> cases n <;>
    simp [gets_selected, gets_selected_loop, configured, State.start]

theorem no_dot_dir_of_not_starting_with_dot (entry : dirent)
    (h : not_starting_with_dot entry = true) : no_dot_dir entry = true := by
  unfold no_dot_dir
  rw [if_pos h]

/-! ## The display buffer -/

theorem two_pow_size_bits (env : Env) : 2 ^ 16 ≤ 2 ^ env.size_bits :=
  Nat.pow_le_pow_right (by decide) env.size_bits_ge

theorem SameOutsideBuffer.refl (s : State) : SameOutsideBuffer s s := rfl

theorem SameOutsideBuffer.trans {s t r : State} (h1 : SameOutsideBuffer s t)
    (h2 : SameOutsideBuffer t r) : SameOutsideBuffer s r := by
  unfold SameOutsideBuffer at *
  rw [h2, h1]

theorem take_succ_set (e : dirent) : ∀ (h : List dirent) (n : Nat), n < h.length →
    (h.set n e).take (n + 1) = h.take n ++ [e] := by
  intro h
  induction h with
  | nil => intro n hn; simp at hn
  | cons a r ih =>
    intro n hn
    cases n with
    | zero => simp
    | succ m =>
      have hm : m < r.length := by simpa using hn
      simp [ih m hm]

/-- The append that allocates the block. -/
theorem add_to_display_buffer_init (env : Env) (entry : dirent) (s : State) (p : Nat)
    (hbuf : s.g_display_buffer = none) (halloc : env.alloc 8 = some p) :
    add_to_display_buffer env entry s = Except.ok
      { s with
        g_display_buffer := some p
        heap := (List.replicate 8 zero_dirent).set s.g_num_entries_in_buffer entry
        g_display_buffer_size := 8
        g_resources := { s.g_resources with display_buffer := some p }
        g_num_entries_in_buffer := (s.g_num_entries_in_buffer + 1) % 2 ^ env.size_bits } := by
  simp only [add_to_display_buffer, hbuf, Option.isNone_none, if_true, init_display_buffer,
    DISPLAY_BUF_INITIAL_NUM_BLOCKS, halloc, bind, Except.bind, pure, Except.pure]

/-- The append that finds the block full and doubles it. -/
theorem add_to_display_buffer_grow (env : Env) (entry : dirent) (s : State) (p q : Nat)
    (hbuf : s.g_display_buffer = some q)
    (hfull : s.g_num_entries_in_buffer = s.g_display_buffer_size)
    (hfit : 2 * s.g_display_buffer_size < 2 ^ env.size_bits)
    (hpos : 0 < s.g_display_buffer_size)
    (halloc : env.alloc (2 * s.g_display_buffer_size) = some p) :
    add_to_display_buffer env entry s = Except.ok
      { s with
        g_display_buffer := some p
        heap := (realloc_cells env s.heap (2 * s.g_display_buffer_size)).set
          s.g_num_entries_in_buffer entry
        g_display_buffer_size := 2 * s.g_display_buffer_size
        g_resources := { s.g_resources with display_buffer := some p }
        g_num_entries_in_buffer := (s.g_num_entries_in_buffer + 1) % 2 ^ env.size_bits } := by
  have hmod : (2 * s.g_display_buffer_size) % 2 ^ env.size_bits = 2 * s.g_display_buffer_size :=
    Nat.mod_eq_of_lt hfit
  have hgt : ¬ 2 * s.g_display_buffer_size ≤ s.g_display_buffer_size := by omega
  simp only [add_to_display_buffer, hbuf, Option.isNone_some, hfull, if_true,
    redouble_display_buffer, hmod, hgt, if_false, halloc, bind, Except.bind, pure, Except.pure]
  simp

/-- The append that finds a free cell. -/
theorem add_to_display_buffer_room (env : Env) (entry : dirent) (s : State) (q : Nat)
    (hbuf : s.g_display_buffer = some q)
    (hroom : s.g_num_entries_in_buffer ≠ s.g_display_buffer_size) :
    add_to_display_buffer env entry s = Except.ok
      { s with
        heap := s.heap.set s.g_num_entries_in_buffer entry
        g_num_entries_in_buffer := (s.g_num_entries_in_buffer + 1) % 2 ^ env.size_bits } := by
  simp only [add_to_display_buffer, hbuf, Option.isNone_some, hroom, if_false,
    bind, Except.bind, pure, Except.pure]
  simp

theorem realloc_cells_length (env : Env) (old : List dirent) (n : Nat) (h : old.length ≤ n) :
    (realloc_cells env old n).length = n := by
  simp [realloc_cells, List.length_take]
  omega

theorem realloc_cells_take (env : Env) (old : List dirent) (n : Nat) (h : old.length ≤ n) :
    (realloc_cells env old n).take old.length = old := by
  unfold realloc_cells
  rw [List.take_of_length_le h, List.take_left]

theorem NoAllocFailure.mono {env : Env} {N M : Nat} (h : NoAllocFailure env N) (hM : M ≤ N) :
    NoAllocFailure env M := by
  intro j hpos hj
  apply h j (by omega)
  rcases hj with hj | hj
  · exact Or.inl hj
  · exact Or.inr (by omega)

/-- One append keeps the buffer invariant, with the entry added at the end. -/
theorem add_to_display_buffer_step (env : Env) (entry : dirent) (s : State) (l : List dirent)
    (hinv : BufInv env s l) (halloc : NoAllocFailure env (l.length + 1)) :
    ∃ t, add_to_display_buffer env entry s = Except.ok t ∧ BufInv env t (l ++ [entry]) ∧
      SameOutsideBuffer s t ∧
      t.g_display_buffer_size =
        if l = [] then 8
        else if l.length = s.g_display_buffer_size then 2 * s.g_display_buffer_size
        else s.g_display_buffer_size := by
  have hw := two_pow_size_bits env
  obtain ⟨hnum, hnone, hsome⟩ := hinv
  cases hbuf : s.g_display_buffer with
  | none =>
    have hl : l = [] := hnone hbuf
    subst hl
    have hnum0 : s.g_num_entries_in_buffer = 0 := hnum
    have h8 : (env.alloc 8).isSome = true := by
      have := halloc 0 (by simp) (Or.inl rfl)
      simpa using this
    obtain ⟨p, hp⟩ := Option.isSome_iff_exists.1 h8
    have hfit := env.alloc_fits 8 p hp
    refine ⟨_, add_to_display_buffer_init env entry s p hbuf hp, ?_, ?_, ?_⟩
    · refine ⟨?_, ?_, ?_⟩
      · show (s.g_num_entries_in_buffer + 1) % 2 ^ env.size_bits = 1
        rw [hnum0]
        exact Nat.mod_eq_of_lt (by omega)
      · intro h; cases h
      · intro _
        refine ⟨by simp, ?_, ?_, hfit, 0, rfl, Or.inl rfl⟩
        · show ((List.replicate 8 zero_dirent).set _ entry).length = 8
          simp
        · show ((List.replicate 8 zero_dirent).set s.g_num_entries_in_buffer entry).take 1 = [entry]
          rw [hnum0]
          rfl
    · exact rfl
    · simp
  | some q =>
    obtain ⟨hne, hlen, htake, hfit, k, hk, hleast⟩ := hsome (by rw [hbuf]; simp)
    have hle : l.length ≤ s.g_display_buffer_size := by
      have := congrArg List.length htake
      rw [List.length_take] at this
      omega
    have hsz := env.sizeof_dirent_ge
    have h2 : 2 * s.g_display_buffer_size < 2 ^ env.size_bits := by
      calc 2 * s.g_display_buffer_size ≤ s.g_display_buffer_size * env.sizeof_dirent := by
            rw [Nat.mul_comm]; exact Nat.mul_le_mul_left _ hsz
        _ < 2 ^ env.size_bits := hfit
    have hkpos : 0 < s.g_display_buffer_size := by rw [hk]; positivity
    by_cases hfull : s.g_num_entries_in_buffer = s.g_display_buffer_size
    · have hreq : (env.alloc (8 * 2 ^ (k + 1))).isSome = true := by
        apply halloc (k + 1) (by omega)
        right
        simp only [Nat.add_sub_cancel]
        omega
      obtain ⟨p, hp⟩ := Option.isSome_iff_exists.1 hreq
      have hdouble : 8 * 2 ^ (k + 1) = 2 * s.g_display_buffer_size := by rw [hk, pow_succ]; ring
      rw [hdouble] at hp
      have hfit2 := env.alloc_fits _ p hp
      refine ⟨_, add_to_display_buffer_grow env entry s p q hbuf hfull h2 hkpos hp, ?_, ?_, ?_⟩
      · refine ⟨?_, ?_, ?_⟩
        · show (s.g_num_entries_in_buffer + 1) % 2 ^ env.size_bits = (l ++ [entry]).length
          rw [List.length_append, List.length_singleton, hnum]
          exact Nat.mod_eq_of_lt (by omega)
        · intro h; cases h
        · intro _
          have hl2 : s.heap.length ≤ 2 * s.g_display_buffer_size := by omega
          refine ⟨by simp, ?_, ?_, hfit2, k + 1, hdouble.symm, Or.inr ?_⟩
          · show ((realloc_cells env s.heap _).set _ entry).length = _
            rw [List.length_set, realloc_cells_length env _ _ hl2]
          · show ((realloc_cells env s.heap _).set s.g_num_entries_in_buffer entry).take
              (l ++ [entry]).length = l ++ [entry]
            rw [List.length_append, List.length_singleton, hnum,
              take_succ_set entry _ _ (by rw [realloc_cells_length env _ _ hl2]; omega)]
            have hll : l.length = s.heap.length := by omega
            rw [hll, realloc_cells_take env _ _ hl2]
            rw [hll, List.take_length] at htake
            rw [htake]
          · simp only [Nat.add_sub_cancel, List.length_append, List.length_singleton]
            omega
      · exact rfl
      · rw [if_neg hne, if_pos (by omega)]
    · have hlt : l.length < s.g_display_buffer_size := by omega
      refine ⟨_, add_to_display_buffer_room env entry s q hbuf hfull, ?_, ?_, ?_⟩
      · refine ⟨?_, ?_, ?_⟩
        · show (s.g_num_entries_in_buffer + 1) % 2 ^ env.size_bits = (l ++ [entry]).length
          rw [List.length_append, List.length_singleton, hnum]
          exact Nat.mod_eq_of_lt (by omega)
        · intro h
          rw [hbuf] at h
          cases h
        · intro _
          refine ⟨by simp, ?_, ?_, hfit, k, hk, ?_⟩
          · show (s.heap.set _ entry).length = _
            rw [List.length_set, hlen]
          · show (s.heap.set s.g_num_entries_in_buffer entry).take (l ++ [entry]).length = _
            rw [List.length_append, List.length_singleton, hnum,
              take_succ_set entry _ _ (by omega), htake]
          · rcases hleast with h0 | h1
            · exact Or.inl h0
            · right
              simp only [List.length_append, List.length_singleton]
              omega
      · exact rfl
      · rw [if_neg hne, if_neg (by omega)]

/-! ## Enumeration and display -/

theorem gets_selected_loop_congr (s t : State) (entry : dirent)
    (h : t.g_selection_filters = s.g_selection_filters) :
    ∀ k i, gets_selected_loop t entry k i = gets_selected_loop s entry k i := by
  intro k
  induction k with
  | zero => intro i; rfl
  | succ k ih =>
    intro i
    simp only [gets_selected_loop, h, ih]

theorem gets_selected_congr (s t : State)
    (h1 : t.g_selection_filters = s.g_selection_filters)
    (h2 : t.g_num_selection_filters = s.g_num_selection_filters) :
    gets_selected t = gets_selected s := by
  funext entry
  unfold gets_selected
  rw [h2, gets_selected_loop_congr s t entry h1]

theorem SameOutsideBuffer.gets_selected {s t : State} (h : SameOutsideBuffer s t) :
    gets_selected t = gets_selected s :=
  gets_selected_congr s t (by rw [h]) (by rw [h])

theorem SameOutsideBuffer.g_handler {s t : State} (h : SameOutsideBuffer s t) :
    t.g_handler = s.g_handler := by rw [h]

theorem SameOutsideBuffer.g_printer {s t : State} (h : SameOutsideBuffer s t) :
    t.g_printer = s.g_printer := by rw [h]

theorem SameOutsideBuffer.stdout {s t : State} (h : SameOutsideBuffer s t) :
    t.stdout = s.stdout := by rw [h]

theorem SameOutsideBuffer.stderr {s t : State} (h : SameOutsideBuffer s t) :
    t.stderr = s.stderr := by rw [h]

theorem SameOutsideBuffer.trace {s t : State} (h : SameOutsideBuffer s t) :
    t.trace = s.trace := by rw [h]

theorem SameOutsideBuffer.directory {s t : State} (h : SameOutsideBuffer s t) :
    t.g_resources.directory = s.g_resources.directory := by rw [h]

/-- Appending a sequence of entries keeps the buffer invariant. -/
theorem append_all_inv (env : Env) (es : List dirent) :
    ∀ (s : State) (l : List dirent), BufInv env s l →
      NoAllocFailure env (l.length + es.length) →
      ∃ t, append_all env es s = Except.ok t ∧ BufInv env t (l ++ es) ∧
        SameOutsideBuffer s t := by
  induction es with
  | nil =>
    intro s l hinv _
    exact ⟨s, rfl, by simpa using hinv, SameOutsideBuffer.refl s⟩
  | cons e rest ih =>
    intro s l hinv halloc
    obtain ⟨t1, h1, hinv1, hsame1, _⟩ :=
      add_to_display_buffer_step env e s l hinv (halloc.mono (by simp))
    obtain ⟨t, h2, hinv2, hsame2⟩ := ih t1 (l ++ [e]) hinv1
      (halloc.mono (by simp; omega))
    refine ⟨t, ?_, by simpa using hinv2, hsame1.trans hsame2⟩
    simp only [append_all, h1, bind, Except.bind]
    exact h2

/-- In buffered mode `read_entries` appends the selected entries, in the order
of the stream. -/
theorem read_entries_loop_buffered (env : Env) (es : List dirent) :
    ∀ (s : State) (l : List dirent), s.g_handler = Handler.add_to_display_buffer →
      BufInv env s l →
      NoAllocFailure env (l.length + (es.filter (gets_selected s)).length) →
      ∃ t, read_entries_loop env es s = Except.ok t ∧
        BufInv env t (l ++ es.filter (gets_selected s)) ∧ SameOutsideBuffer s t := by
  induction es with
  | nil =>
    intro s l _ hinv _
    exact ⟨s, rfl, by simpa using hinv, SameOutsideBuffer.refl s⟩
  | cons e rest ih =>
    intro s l hh hinv halloc
    by_cases hsel : gets_selected s e = true
    · rw [List.filter_cons_of_pos hsel] at halloc ⊢
      obtain ⟨t1, h1, hinv1, hsame1, _⟩ :=
        add_to_display_buffer_step env e s l hinv (halloc.mono (by simp))
      have hsel1 := hsame1.gets_selected
      obtain ⟨t, h2, hinv2, hsame2⟩ := ih t1 (l ++ [e]) (hsame1.g_handler.trans hh) hinv1
        (by rw [hsel1]; exact halloc.mono (by simp; omega))
      rw [hsel1] at hinv2
      refine ⟨t, ?_, by simpa using hinv2, hsame1.trans hsame2⟩
      simp only [read_entries_loop, hsel, if_true, hh, call_handler, h1, bind, Except.bind]
      exact h2
    · rw [List.filter_cons_of_neg hsel] at halloc ⊢
      obtain ⟨t, h2, hinv2, hsame2⟩ := ih s l hh hinv halloc
      refine ⟨t, ?_, hinv2, hsame2⟩
      simp only [read_entries_loop, hsel]
      exact h2

/-- In unordered mode `read_entries` prints the selected entries, in the order of
the stream, and changes nothing else. -/
theorem read_entries_loop_unordered (env : Env) (es : List dirent) :
    ∀ s : State, s.g_handler = Handler.print_name →
      read_entries_loop env es s = Except.ok
        { s with stdout := s.stdout ++ (es.filter (gets_selected s)).map line } := by
  induction es with
  | nil => intro s _; simp [read_entries_loop, pure, Except.pure]
  | cons e rest ih =>
    intro s hh
    by_cases hsel : gets_selected s e = true
    · have hsel1 : gets_selected (print_name e s) = gets_selected s :=
        gets_selected_congr s _ rfl rfl
      simp only [read_entries_loop, hsel, if_true, hh, call_handler, bind, Except.bind, pure,
        Except.pure]
      rw [ih (print_name e s) hh, hsel1, List.filter_cons_of_pos hsel]
      simp [print_name, line, hh]
    · simp only [read_entries_loop, hsel]
      rw [ih s hh, List.filter_cons_of_neg hsel]
      rfl

/-- The printing loop writes the lines of `k` cells from cell `i` on. -/
theorem display_loop_eq : ∀ (k i : Nat) (s : State), s.g_printer = Printer.print_name →
    i + k ≤ s.heap.length →
    display_loop k i s =
      { s with stdout := s.stdout ++ ((s.heap.drop i).take k).map line } := by
  intro k
  induction k with
  | zero => intro i s _ _; simp [display_loop]
  | succ k ih =>
    intro i s hp hlen
    have hi : i < s.heap.length := by omega
    rw [display_loop, hp]
    simp only [call_printer]
    rw [ih (i + 1) (print_name _ s) hp (by show i + 1 + k ≤ s.heap.length; omega)]
    have hget : s.heap.getD i zero_dirent = s.heap[i] := List.getD_eq_getElem _ _ hi
    rw [hget]
    show ({ s with stdout := _ } : State) = _
    congr 1
    show s.stdout ++ [line s.heap[i]] ++ List.map line (List.take k (List.drop (i + 1) s.heap)) =
      s.stdout ++ List.map line (List.take (k + 1) (List.drop i s.heap))
    rw [List.drop_eq_getElem_cons hi, List.take_succ_cons, List.map_cons, List.append_assoc]
    rfl

/-- When `parse_args` returns from the start state: only the flags `a`, `n`, `u`
were seen, at most one positional argument is left, and the state is the
configured one. -/
theorem parse_args_start (env : Env) (argc : Int) (argv : List (List Char)) (cfg : State) :
    parse_args env argc argv State.start = Except.ok cfg ↔
      (∀ c ∈ (env.getopt argc argv).1, c = 'a' ∨ c = 'n' ∨ c = 'u') ∧
      ((env.getopt argc argv).2 = argc - 1 ∨ argc ≤ (env.getopt argc argv).2) ∧
      cfg = configured (decide ('a' ∈ (env.getopt argc argv).1))
        (decide ('n' ∈ (env.getopt argc argv).1)) (decide ('u' ∈ (env.getopt argc argv).1))
        (if (env.getopt argc argv).2 = argc - 1
          then (env.getopt_argv argc argv).getD (env.getopt argc argv).2.toNat []
          else CWD_SHORT) := by
  by_cases hopts : ∀ c ∈ (env.getopt argc argv).1, c = 'a' ∨ c = 'n' ∨ c = 'u'
  · have hloop := parse_args_loop_ok (env.getopt_diag argc argv) argv _ 0 State.start hopts
    by_cases hpos : (env.getopt argc argv).2 = argc - 1 ∨ argc ≤ (env.getopt argc argv).2
    · have hfin := finish_args_flags argc (env.getopt_argv argc argv) (env.getopt argc argv).2
        (decide ('a' ∈ (env.getopt argc argv).1)) (decide ('n' ∈ (env.getopt argc argv).1))
        (decide ('u' ∈ (env.getopt argc argv).1)) hpos
      have hrun : parse_args env argc argv State.start = Except.ok
          (configured (decide ('a' ∈ (env.getopt argc argv).1))
            (decide ('n' ∈ (env.getopt argc argv).1)) (decide ('u' ∈ (env.getopt argc argv).1))
            (if (env.getopt argc argv).2 = argc - 1
              then (env.getopt_argv argc argv).getD (env.getopt argc argv).2.toNat []
              else CWD_SHORT)) := by
        simp only [parse_args, hloop, bind, Except.bind]
        rw [← hfin]
        rfl
      rw [hrun]
      constructor
      · intro h
        exact ⟨hopts, hpos, (Except.ok.inj h).symm⟩
      · rintro ⟨_, _, h⟩
        rw [h]
    · have h1 : ¬ (env.getopt argc argv).2 = argc - 1 := fun h => hpos (Or.inl h)
      have h2 : (env.getopt argc argv).2 < argc := by
        by_contra h
        exact hpos (Or.inr (by omega))
      constructor
      · intro h
        simp only [parse_args, hloop, bind, Except.bind, finish_args, if_neg h1, if_pos h2,
          throw, throwThe, MonadExceptOf.throw] at h
        cases h
      · rintro ⟨_, h, _⟩
        exact absurd h hpos
  · constructor
    · intro h
      obtain ⟨e, he⟩ := parse_args_loop_error (env.getopt_diag argc argv) argv _ 0
        State.start hopts
      simp only [parse_args, he, bind, Except.bind] at h
      cases h
    · rintro ⟨h, _, _⟩
      exact absurd h hopts

theorem open_directory_ok (env : Env) (dir_name : List Char) (s : State) (d : DIR)
    (h : env.opendir dir_name = Except.ok d) :
    open_directory env dir_name s = Except.ok
      (d, { s with g_resources := { s.g_resources with directory := some d.handle } }) := by
  simp only [open_directory, h]
  rfl

theorem BufInv_configured (env : Env) (a n u : Bool) (dir : List Char) (r : Option Nat) :
    BufInv env
      { configured a n u dir with
        g_resources := { (configured a n u dir).g_resources with directory := r } } [] :=
  ⟨rfl, fun _ => rfl, fun h => absurd rfl h⟩

theorem BufInv.close_directory {env : Env} {s : State} {l : List dirent} (d : DIR)
    (h : BufInv env s l) : BufInv env (close_directory d s) l := h

/-- The display prints the buffered entries in the order `qsort` leaves them. -/
theorem display_buffered_entries_inv (env : Env) (s : State) (l : List dirent)
    (hinv : BufInv env s l) (hp : s.g_printer = Printer.print_name) :
    ∃ cells, display_buffered_entries env s =
      { s with
        heap := cells
        stdout := s.stdout ++ (env.qsort.sort compare_entries l).map line } := by
  obtain ⟨hnum, hnone, hsome⟩ := hinv
  by_cases hbuf : s.g_display_buffer = none
  · have hl : l = [] := hnone hbuf
    subst hl
    have hs : env.qsort.sort compare_entries [] = [] :=
      List.Perm.eq_nil (env.qsort.perm compare_entries [])
    refine ⟨s.heap, ?_⟩
    unfold display_buffered_entries
    rw [if_neg (by rw [hbuf]; simp), hs]
    simp
  · obtain ⟨_, hlen, htake, _, _⟩ := hsome hbuf
    have hsl : (env.qsort.sort compare_entries l).length = l.length :=
      (env.qsort.perm compare_entries l).length_eq
    refine ⟨env.qsort.sort compare_entries l ++ s.heap.drop l.length, ?_⟩
    have hdisp : display_buffered_entries env s =
        display_loop s.g_num_entries_in_buffer 0
          { s with heap := (env.qsort.sort compare_entries
              (s.heap.take s.g_num_entries_in_buffer) ++
              s.heap.drop s.g_num_entries_in_buffer) } := by
      unfold display_buffered_entries
      rw [if_pos (Option.ne_none_iff_isSome.1 hbuf)]
    rw [hdisp, display_loop_eq _ _ _ (by exact hp) (by simp [hnum, htake, hsl])]
    simp only [hnum, htake, List.drop_zero]
    rw [← hsl, List.take_left]

theorem free_resources_stdout (s : State) : (free_resources s).stdout = s.stdout := by
  dsimp only [free_resources]
  split <;> split <;> rfl

theorem free_and_exit_status (status_code : Int) (s : State) :
    (free_and_exit status_code s).status = status_code := rfl

theorem free_and_exit_stdout (status_code : Int) (s : State) :
    (free_and_exit status_code s).state.stdout = s.stdout :=
  free_resources_stdout s

/-- The run of `main` once the arguments are parsed, the directory is open and
the enumeration has returned. -/
theorem main_eq (env : Env) (argc : Int) (argv : List (List Char)) (cfg t : State) (d : DIR)
    (hcfg : parse_args env argc argv State.start = Except.ok cfg)
    (hopen : env.opendir cfg.g_directory_name = Except.ok d)
    (hread : read_entries_loop env d.entries
      { cfg with g_resources := { cfg.g_resources with directory := some d.handle } } =
        Except.ok t) :
    main env argc argv =
      free_and_exit EXIT_SUCCESS (display_buffered_entries env (close_directory d t)) := by
  unfold main
  simp only [hcfg, open_directory_ok env _ cfg d hopen, read_entries, hread]

/-- A buffered run prints the selected entries in the order `qsort` leaves them. -/
theorem main_buffered (env : Env) (argc : Int) (argv : List (List Char)) (cfg : State) (d : DIR)
    (hcfg : parse_args env argc argv State.start = Except.ok cfg)
    (hu : cfg.opt_unordered = false)
    (hopen : env.opendir cfg.g_directory_name = Except.ok d)
    (halloc : NoAllocFailure env (d.entries.filter (gets_selected cfg)).length) :
    (main env argc argv).status = EXIT_SUCCESS ∧
    (main env argc argv).state.stdout =
      (env.qsort.sort compare_entries (d.entries.filter (gets_selected cfg))).map line := by
  obtain ⟨_, _, hc⟩ := (parse_args_start env argc argv cfg).1 hcfg
  have hsel : gets_selected
      { cfg with g_resources := { cfg.g_resources with directory := some d.handle } } =
      gets_selected cfg := gets_selected_congr _ _ rfl rfl
  have hinv : BufInv env
      { cfg with g_resources := { cfg.g_resources with directory := some d.handle } } [] := by
    rw [hc]
    exact BufInv_configured env _ _ _ _ _
  have hh : cfg.g_handler = Handler.add_to_display_buffer := by
    rw [hc] at hu ⊢
    have hu1 : decide ('u' ∈ (env.getopt argc argv).1) = false := hu
    show (if decide ('u' ∈ (env.getopt argc argv).1) = true then Handler.print_name
      else Handler.add_to_display_buffer) = _
    rw [hu1]
    rfl
  have hp : cfg.g_printer = Printer.print_name := congrArg _ hc
  have hout : cfg.stdout = [] := congrArg _ hc
  obtain ⟨t, hread, hinvt, hsame⟩ := read_entries_loop_buffered env d.entries
    { cfg with g_resources := { cfg.g_resources with directory := some d.handle } } [] hh hinv
    (by rw [hsel]; simpa using halloc)
  rw [hsel, List.nil_append] at hinvt
  obtain ⟨cells, hdisp⟩ := display_buffered_entries_inv env (close_directory d t) _
    (hinvt.close_directory d) (hsame.g_printer.trans hp)
  rw [main_eq env argc argv cfg t d hcfg hopen hread, hdisp]
  refine ⟨rfl, ?_⟩
  rw [free_and_exit_stdout]
  show (close_directory d t).stdout ++ _ = _
  have : (close_directory d t).stdout = [] := hsame.stdout.trans hout
  rw [this, List.nil_append]

/-- An unordered run prints the selected entries in the order of the stream. -/
theorem main_unordered (env : Env) (argc : Int) (argv : List (List Char)) (cfg : State) (d : DIR)
    (hcfg : parse_args env argc argv State.start = Except.ok cfg)
    (hu : cfg.opt_unordered = true)
    (hopen : env.opendir cfg.g_directory_name = Except.ok d) :
    (main env argc argv).status = EXIT_SUCCESS ∧
    (main env argc argv).state.stdout = (d.entries.filter (gets_selected cfg)).map line := by
  obtain ⟨_, _, hc⟩ := (parse_args_start env argc argv cfg).1 hcfg
  have hsel : gets_selected
      { cfg with g_resources := { cfg.g_resources with directory := some d.handle } } =
      gets_selected cfg := gets_selected_congr _ _ rfl rfl
  have hh : cfg.g_handler = Handler.print_name := by
    rw [hc] at hu ⊢
    have hu1 : decide ('u' ∈ (env.getopt argc argv).1) = true := hu
    show (if decide ('u' ∈ (env.getopt argc argv).1) = true then Handler.print_name
      else Handler.add_to_display_buffer) = _
    rw [hu1]
    rfl
  have hbuf : cfg.g_display_buffer = none := congrArg _ hc
  have hout : cfg.stdout = [] := congrArg _ hc
  have hread := read_entries_loop_unordered env d.entries
    { cfg with g_resources := { cfg.g_resources with directory := some d.handle } } hh
  rw [main_eq env argc argv cfg _ d hcfg hopen hread]
  refine ⟨rfl, ?_⟩
  rw [free_and_exit_stdout]
  unfold display_buffered_entries
  rw [if_neg (by show ¬ (cfg.g_display_buffer.isSome = true); rw [hbuf]; simp)]
  show cfg.stdout ++ (d.entries.filter (gets_selected
    { cfg with g_resources := { cfg.g_resources with directory := some d.handle } })).map line = _
  rw [hsel, hout, List.nil_append]

/-! ## The comparison function -/

theorem compare_entries_consistent : Consistent compare_entries := by
  constructor
  · intro a b
    have h := strcasecmp_swap a.d_name b.d_name
    unfold compare_entries
    omega
  · intro a b c
    exact strcasecmp_trans a.d_name b.d_name c.d_name

theorem tolower_eq_zero_iff (c : Char) : tolower c = 0 ↔ c = NUL := by
  constructor
  · intro h
    unfold tolower at h
    have h0 : c.toNat = 0 := by
      split_ifs at h
      all_goals omega
    apply Char.ext
    apply UInt32.ext
    exact h0
  · rintro rfl
    exact tolower_NUL

theorem char_at_c_str_zero (s : List Char) : char_at (c_str s) 0 = char_at s 0 := by
  cases s with
  | nil => rfl
  | cons a r =>
    rw [c_str_cons]
    by_cases h : a = NUL
    · rw [if_pos h, char_at_nil, char_at_cons_zero, h]
    · rw [if_neg h, char_at_cons_zero, char_at_cons_zero]

theorem strcasecmp_c_str_left (a : List Char) : ∀ b, strcasecmp (c_str a) b = strcasecmp a b := by
  induction a with
  | nil => intro b; rfl
  | cons x xs ih =>
    intro b
    rw [c_str_cons]
    by_cases h : x = NUL
    · rw [if_pos h]
      have h0 : tolower x = 0 := (tolower_eq_zero_iff x).2 h
      simp only [strcasecmp, h0, if_true, tolower_NUL]
    · rw [if_neg h]
      simp only [strcasecmp, ih]

theorem strcasecmp_c_str_right (a : List Char) : ∀ b, strcasecmp a (c_str b) = strcasecmp a b := by
  induction a with
  | nil => intro b; simp only [strcasecmp, char_at_c_str_zero]
  | cons x xs ih =>
    intro b
    simp only [strcasecmp, char_at_c_str_zero]
    by_cases h0 : tolower x = 0
    · simp only [h0, if_true]
    · simp only [h0, if_false]
      by_cases h1 : tolower x = tolower (char_at b 0)
      · simp only [h1, if_true]
        cases b with
        | nil =>
          rw [char_at_nil, tolower_NUL] at h1
          exact absurd h1 h0
        | cons y ys =>
          rw [char_at_cons_zero] at h1
          have hy : y ≠ NUL := fun hy => h0 (by rw [h1]; exact (tolower_eq_zero_iff y).2 hy)
          rw [c_str_cons, if_neg hy, List.tail_cons, List.tail_cons, ih]
      · simp only [h1, if_false]

theorem strcasecmp_c_str (a b : List Char) : strcasecmp (c_str a) (c_str b) = strcasecmp a b := by
  rw [strcasecmp_c_str_left, strcasecmp_c_str_right]

/-- The comparison of two printed lines is the comparison of the entries. -/
theorem compare_entries_line (a b : dirent) :
    compare_entries ⟨(line a).dropLast⟩ ⟨(line b).dropLast⟩ = compare_entries a b := by
  unfold compare_entries line
  simp only [List.dropLast_concat]
  exact strcasecmp_c_str a.d_name b.d_name

/-! ## The claims -/

theorem parse_args_flags (env : Env) (argc : Int) (argv : List (List Char)) (cfg : State)
    (hcfg : parse_args env argc argv State.start = Except.ok cfg) :
    cfg.opt_show_dot_dirs = decide ('a' ∈ (env.getopt argc argv).1) ∧
    cfg.opt_no_dotfiles = decide ('n' ∈ (env.getopt argc argv).1) ∧
    cfg.opt_unordered = decide ('u' ∈ (env.getopt argc argv).1) := by
  obtain ⟨_, _, hc⟩ := (parse_args_start env argc argv cfg).1 hcfg
  exact ⟨congrArg State.opt_show_dot_dirs hc, congrArg State.opt_no_dotfiles hc,
    congrArg State.opt_unordered hc⟩

/-- How the configured chain selects, by the flags given. -/
theorem gets_selected_parse_args (env : Env) (argc : Int) (argv : List (List Char)) (cfg : State)
    (hcfg : parse_args env argc argv State.start = Except.ok cfg) (entry : dirent) :
    gets_selected cfg entry =
      ((decide ('a' ∈ (env.getopt argc argv).1) || no_dot_dir entry) &&
        (!decide ('n' ∈ (env.getopt argc argv).1) || not_starting_with_dot entry)) := by
  obtain ⟨_, _, hc⟩ := (parse_args_start env argc argv cfg).1 hcfg
  rw [hc]
  exact gets_selected_configured _ _ _ _ entry

/-- The sample environment grants every request a run of at most `2 ^ 40` appends
makes. -/
theorem sample_env_no_alloc_failure (opts : List Char) (optind : Int) (entries : List dirent)
    (N : Nat) (hN : N ≤ 2 ^ 40) : NoAllocFailure (sample_env opts optind entries) N := by
  intro j hpos hj
  have hsmall : 8 * 2 ^ j * 280 < 2 ^ 64 := by
    rcases Nat.eq_zero_or_pos j with h0 | h0
    · subst h0; decide
    · have hj2 : 8 * 2 ^ (j - 1) < N := by
        rcases hj with hj | hj
        · omega
        · exact hj
      have hj1 : j = (j - 1) + 1 := by omega
      have : 8 * 2 ^ j = 2 * (8 * 2 ^ (j - 1)) := by
        conv_lhs => rw [hj1, pow_succ]
        ring
      rw [this]
      have h40 : (2 : Nat) ^ 40 = 1099511627776 := by norm_num
      have h64 : (2 : Nat) ^ 64 = 18446744073709551616 := by norm_num
      omega
  show (if 8 * 2 ^ j * 280 < 2 ^ 64 then some 4096 else none : Option Nat).isSome = true
  rw [if_pos hsmall]
  rfl

/-- C1: for every stream of entries the open directory returns and every
combination of the flags `-a`, `-n`, `-u` (every run in which `parse_args`
returns), when no allocation fails, the lines `main` prints are, as a multiset,
exactly the lines of the entries of the stream that `gets_selected` accepts under
the configured filter chain. -/
theorem main_prints_exactly_selected (env : Env) (argc : Int) (argv : List (List Char))
    (cfg : State) (d : DIR)
    (hcfg : parse_args env argc argv State.start = Except.ok cfg)
    (hopen : env.opendir cfg.g_directory_name = Except.ok d)
    (halloc : 'u' ∉ (env.getopt argc argv).1 →
      NoAllocFailure env (d.entries.filter (gets_selected cfg)).length) :
    (main env argc argv).state.stdout.Perm ((d.entries.filter (gets_selected cfg)).map line) := by
  have hflag := (parse_args_flags env argc argv cfg hcfg).2.2
  by_cases hu : 'u' ∈ (env.getopt argc argv).1
  · have hu1 : cfg.opt_unordered = true := by rw [hflag]; exact decide_eq_true hu
    rw [(main_unordered env argc argv cfg d hcfg hu1 hopen).2]
  · have hu1 : cfg.opt_unordered = false := by rw [hflag]; exact decide_eq_false hu
    rw [(main_buffered env argc argv cfg d hcfg hu1 hopen (halloc hu)).2]
    exact (env.qsort.perm compare_entries _).map line

theorem main_prints_exactly_selected_witness :
    (main (sample_env ['a'] 2 sample_dir) 2 ["ls".toList, "-a".toList]).state.stdout.Perm
      ((sample_dir.filter (gets_selected (configured true false false CWD_SHORT))).map line) :=
  main_prints_exactly_selected (sample_env ['a'] 2 sample_dir) 2 ["ls".toList, "-a".toList]
    (configured true false false CWD_SHORT) ⟨3, sample_dir⟩ rfl rfl
    (fun _ => sample_env_no_alloc_failure _ _ _ _ (by decide))

/-- C2: when `-u` is not given (and the run reaches the display: the arguments
parse, the directory opens, no allocation fails), the lines that
`display_buffered_entries` prints are in ascending order under
`compare_entries`: for any two adjacent lines `x` then `y`, the comparison of
the name in `x` with the name in `y` is at most 0. -/
theorem main_prints_in_order (env : Env) (argc : Int) (argv : List (List Char))
    (cfg : State) (d : DIR)
    (hcfg : parse_args env argc argv State.start = Except.ok cfg)
    (hu : 'u' ∉ (env.getopt argc argv).1)
    (hopen : env.opendir cfg.g_directory_name = Except.ok d)
    (halloc : NoAllocFailure env (d.entries.filter (gets_selected cfg)).length) :
    (main env argc argv).state.stdout.Chain'
      (fun x y => compare_entries ⟨x.dropLast⟩ ⟨y.dropLast⟩ ≤ 0) := by
  have hflag := (parse_args_flags env argc argv cfg hcfg).2.2
  have hu1 : cfg.opt_unordered = false := by rw [hflag]; exact decide_eq_false hu
  rw [(main_buffered env argc argv cfg d hcfg hu1 hopen halloc).2, List.chain'_map]
  have hs := env.qsort.sorted compare_entries compare_entries_consistent
    (d.entries.filter (gets_selected cfg))
  refine (List.Pairwise.chain' hs).imp ?_
  intro a b hab
  rw [compare_entries_line]
  exact hab

theorem main_prints_in_order_witness :
    (main (sample_env [] 1 sample_dir) 1 ["ls".toList]).state.stdout.Chain'
      (fun x y => compare_entries ⟨x.dropLast⟩ ⟨y.dropLast⟩ ≤ 0) :=
  main_prints_in_order (sample_env [] 1 sample_dir) 1 ["ls".toList]
    (configured false false false CWD_SHORT) ⟨3, sample_dir⟩ rfl (by decide) rfl
    (sample_env_no_alloc_failure _ _ _ _ (by decide))

/-- C3: when `-u` is given, the handler is the printer; `read_entries` prints the
selected entries of the stream in the order of the stream and leaves the display
buffer unallocated and empty; `display_buffered_entries` then changes nothing;
and the lines of the whole run are the lines of the selected entries in the
order of the stream. -/
theorem unordered_prints_stream_order (env : Env) (argc : Int) (argv : List (List Char))
    (cfg : State) (d : DIR)
    (hcfg : parse_args env argc argv State.start = Except.ok cfg)
    (hu : 'u' ∈ (env.getopt argc argv).1)
    (hopen : env.opendir cfg.g_directory_name = Except.ok d) :
    cfg.g_handler = cfg.g_printer.toHandler ∧
    (∃ s t, open_directory env cfg.g_directory_name cfg = Except.ok (d, s) ∧
      read_entries env d s = Except.ok t ∧
      t.stdout = (d.entries.filter (gets_selected cfg)).map line ∧
      t.g_display_buffer = none ∧ t.g_num_entries_in_buffer = 0 ∧ t.heap = [] ∧
      display_buffered_entries env (close_directory d t) = close_directory d t) ∧
    (main env argc argv).state.stdout = (d.entries.filter (gets_selected cfg)).map line := by
  obtain ⟨_, _, hc⟩ := (parse_args_start env argc argv cfg).1 hcfg
  have hflag := (parse_args_flags env argc argv cfg hcfg).2.2
  have hu1 : cfg.opt_unordered = true := by rw [hflag]; exact decide_eq_true hu
  have hudec : decide ('u' ∈ (env.getopt argc argv).1) = true := decide_eq_true hu
  have hh : cfg.g_handler = Handler.print_name := by
    rw [hc]
    show (if decide ('u' ∈ (env.getopt argc argv).1) = true then Handler.print_name
      else Handler.add_to_display_buffer) = _
    rw [hudec]
    rfl
  have hp : cfg.g_printer = Printer.print_name := congrArg _ hc
  have hbuf : cfg.g_display_buffer = none := congrArg _ hc
  have hnum : cfg.g_num_entries_in_buffer = 0 := congrArg _ hc
  have hheap : cfg.heap = [] := congrArg _ hc
  have hout : cfg.stdout = [] := congrArg _ hc
  have hsel : gets_selected
      { cfg with g_resources := { cfg.g_resources with directory := some d.handle } } =
      gets_selected cfg := gets_selected_congr _ _ rfl rfl
  refine ⟨?_, ?_, (main_unordered env argc argv cfg d hcfg hu1 hopen).2⟩
  · rw [hh, hp]
    rfl
  · refine ⟨_, _, open_directory_ok env _ cfg d hopen,
      read_entries_loop_unordered env d.entries
        { cfg with g_resources := { cfg.g_resources with directory := some d.handle } } hh,
      ?_, hbuf, hnum, hheap, ?_⟩
    · show cfg.stdout ++ (d.entries.filter (gets_selected
        { cfg with g_resources := { cfg.g_resources with directory := some d.handle } })).map
          line = _
      rw [hsel, hout, List.nil_append]
    · unfold display_buffered_entries
      rw [if_neg (by show ¬ (cfg.g_display_buffer.isSome = true); rw [hbuf]; simp)]

theorem unordered_prints_stream_order_witness :
    (main (sample_env ['u'] 2 sample_dir) 2 ["ls".toList, "-u".toList]).state.stdout =
      [".hidden".toList ++ [LF], "Banana".toList ++ [LF], "apple".toList ++ [LF]] :=
  (unordered_prints_stream_order (sample_env ['u'] 2 sample_dir) 2 ["ls".toList, "-u".toList]
    (configured false false true CWD_SHORT) ⟨3, sample_dir⟩ rfl (by decide) rfl).2.2.trans
    (by decide)

/-- C4: `no_dot_dir` returns false exactly for the entries named `.` and `..`,
whatever the name; and in a run without flags the configured chain selects an
entry exactly when `no_dot_dir` accepts it, so never `.` or `..` and always any
other name, dot-prefixed or not. -/
theorem no_dot_dir_rejects_exactly_dot_dirs (env : Env) (argc : Int) (argv : List (List Char))
    (cfg : State) (entry : dirent)
    (hcfg : parse_args env argc argv State.start = Except.ok cfg)
    (hdefault : (env.getopt argc argv).1 = []) :
    (no_dot_dir entry = false ↔
      c_str entry.d_name = ['.'] ∨ c_str entry.d_name = ['.', '.']) ∧
    (gets_selected cfg entry = false ↔
      c_str entry.d_name = ['.'] ∨ c_str entry.d_name = ['.', '.']) := by
  refine ⟨no_dot_dir_eq_false_iff entry, ?_⟩
  rw [gets_selected_parse_args env argc argv cfg hcfg entry, hdefault]
  simpa using no_dot_dir_eq_false_iff entry

theorem no_dot_dir_rejects_exactly_dot_dirs_witness :
    (no_dot_dir ⟨"...".toList⟩ = false ↔
      c_str "...".toList = ['.'] ∨ c_str "...".toList = ['.', '.']) ∧
    (gets_selected (configured false false false CWD_SHORT) ⟨"...".toList⟩ = false ↔
      c_str "...".toList = ['.'] ∨ c_str "...".toList = ['.', '.']) :=
  no_dot_dir_rejects_exactly_dot_dirs (sample_env [] 1 sample_dir) 1 ["ls".toList]
    (configured false false false CWD_SHORT) ⟨"...".toList⟩ rfl rfl

/-- C5: when `-n` is given, with or without `-a`, the configured chain selects an
entry exactly when its name does not begin with a dot: it agrees with
`not_starting_with_dot` alone, also when `no_dot_dir` is installed in front of it
(the chain without `-a`). -/
theorem no_dotfiles_selects_by_first_char (env : Env) (argc : Int) (argv : List (List Char))
    (cfg : State) (entry : dirent)
    (hcfg : parse_args env argc argv State.start = Except.ok cfg)
    (hn : 'n' ∈ (env.getopt argc argv).1) :
    (gets_selected cfg entry = true ↔ (c_str entry.d_name).head? ≠ some '.') ∧
    gets_selected cfg entry = not_starting_with_dot entry ∧
    ('a' ∉ (env.getopt argc argv).1 →
      cfg.g_num_selection_filters = 2 ∧
      cfg.g_selection_filters = [some no_dot_dir, some not_starting_with_dot]) ∧
    ('a' ∈ (env.getopt argc argv).1 →
      cfg.g_num_selection_filters = 1 ∧
      cfg.g_selection_filters = [some not_starting_with_dot, none]) := by
  have hsel : gets_selected cfg entry = not_starting_with_dot entry := by
    rw [gets_selected_parse_args env argc argv cfg hcfg entry, decide_eq_true hn]
    cases h : not_starting_with_dot entry
    · simp
    · simp [no_dot_dir_of_not_starting_with_dot entry h]
  obtain ⟨_, _, hc⟩ := (parse_args_start env argc argv cfg).1 hcfg
  refine ⟨?_, hsel, ?_, ?_⟩
  · rw [hsel]
    exact not_starting_with_dot_iff entry
  · intro ha
    rw [hc, decide_eq_true hn, decide_eq_false ha]
    exact ⟨rfl, rfl⟩
  · intro ha
    rw [hc, decide_eq_true hn, decide_eq_true ha]
    exact ⟨rfl, rfl⟩

theorem no_dotfiles_selects_by_first_char_witness :
    gets_selected (configured false true false CWD_SHORT) ⟨".hidden".toList⟩ =
      not_starting_with_dot ⟨".hidden".toList⟩ :=
  (no_dotfiles_selects_by_first_char (sample_env ['n'] 2 sample_dir) 2
    ["ls".toList, "-n".toList] (configured false true false CWD_SHORT) ⟨".hidden".toList⟩
    rfl (by decide)).2.1

/-- The claim C6 as stated fails: with `-a` and `-n` together the entries `.`, `..`
and `.hidden` of the sample directory are not printed. -/
theorem show_all_with_no_dotfiles_hides_dot_entries :
    'a' ∈ ((sample_env ['a', 'n'] 3 sample_dir).getopt 3
      ["ls".toList, "-a".toList, "-n".toList]).1 ∧
    gets_selected (configured true true false CWD_SHORT) ⟨".".toList⟩ = false ∧
    (main (sample_env ['a', 'n'] 3 sample_dir) 3
      ["ls".toList, "-a".toList, "-n".toList]).state.stdout =
      ["apple".toList ++ [LF], "Banana".toList ++ [LF]] := by
  decide

/-- C6 (amended): for every flag combination that includes `-a` and not `-n`,
every entry is selected, whatever its name; and when the directory opens and no
allocation fails, the lines printed are, as a multiset, the lines of all entries
of the directory. -/
theorem show_all_selects_every_entry (env : Env) (argc : Int) (argv : List (List Char))
    (cfg : State) (d : DIR)
    (hcfg : parse_args env argc argv State.start = Except.ok cfg)
    (ha : 'a' ∈ (env.getopt argc argv).1)
    (hn : 'n' ∉ (env.getopt argc argv).1)
    (hopen : env.opendir cfg.g_directory_name = Except.ok d)
    (halloc : 'u' ∉ (env.getopt argc argv).1 → NoAllocFailure env d.entries.length) :
    (∀ entry, gets_selected cfg entry = true) ∧
    (main env argc argv).state.stdout.Perm (d.entries.map line) := by
  have hall : ∀ entry, gets_selected cfg entry = true := by
    intro entry
    rw [gets_selected_parse_args env argc argv cfg hcfg entry, decide_eq_true ha,
      decide_eq_false hn]
    rfl
  have hfilter : d.entries.filter (gets_selected cfg) = d.entries :=
    List.filter_eq_self.2 (fun e _ => hall e)
  refine ⟨hall, ?_⟩
  have hflag := (parse_args_flags env argc argv cfg hcfg).2.2
  by_cases hu : 'u' ∈ (env.getopt argc argv).1
  · have hu1 : cfg.opt_unordered = true := by rw [hflag]; exact decide_eq_true hu
    rw [(main_unordered env argc argv cfg d hcfg hu1 hopen).2, hfilter]
  · have hu1 : cfg.opt_unordered = false := by rw [hflag]; exact decide_eq_false hu
    rw [(main_buffered env argc argv cfg d hcfg hu1 hopen
      (by rw [hfilter]; exact halloc hu)).2, hfilter]
    exact (env.qsort.perm compare_entries _).map line

theorem show_all_selects_every_entry_witness :
    (∀ entry, gets_selected (configured true false false CWD_SHORT) entry = true) ∧
    (main (sample_env ['a'] 2 sample_dir) 2 ["ls".toList, "-a".toList]).state.stdout.Perm
      (sample_dir.map line) :=
  show_all_selects_every_entry (sample_env ['a'] 2 sample_dir) 2 ["ls".toList, "-a".toList]
    (configured true false false CWD_SHORT) ⟨3, sample_dir⟩ rfl (by decide) (by decide) rfl
    (fun _ => sample_env_no_alloc_failure _ _ _ _ (by decide))

theorem gets_selected_loop_iff (s : State) (entry : dirent) :
    ∀ k i, gets_selected_loop s entry k i = true ↔
      ∀ j, i ≤ j → j < i + k → ∀ filter : Selector,
        s.g_selection_filters.getD j none = some filter → filter entry = true := by
  intro k
  induction k with
  | zero =>
    intro i
    simp only [gets_selected_loop, true_iff]
    intro j h1 h2
    omega
  | succ k ih =>
    intro i
    rw [gets_selected_loop]
    constructor
    · intro h j h1 h2 filter hf
      rcases Nat.eq_or_lt_of_le h1 with rfl | hlt
      · rw [hf] at h
        by_contra hne
        simp [hne] at h
      · have hrest : gets_selected_loop s entry k (i + 1) = true := by
          cases hget : s.g_selection_filters.getD i none with
          | none => rw [hget] at h; exact h
          | some f =>
            rw [hget] at h
            by_cases hfe : f entry = true
            · simpa [hfe] using h
            · simp [hfe] at h
        exact (ih (i + 1)).1 hrest j (by omega) (by omega) filter hf
    · intro h
      have hrest : gets_selected_loop s entry k (i + 1) = true :=
        (ih (i + 1)).2 (fun j h1 h2 => h j (by omega) (by omega))
      cases hget : s.g_selection_filters.getD i none with
      | none => exact hrest
      | some f =>
        have hfe : f entry = true := h i (Nat.le_refl i) (by omega) f hget
        simp [hfe, hrest]

/-- C7: `gets_selected` returns true exactly when every filter installed in the
first `g_num_selection_filters` cells of the chain returns true for the entry;
with an empty chain it returns true; and for the chains `add_selection_filter`
builds from the start state with one filter `f`, or with `f` and then `g`, it
returns `f entry`, respectively `f entry && g entry`. -/
theorem gets_selected_iff_all_filters (s : State) (entry : dirent) (f g : Selector) :
    (gets_selected s entry = true ↔
      ∀ i, i < s.g_num_selection_filters → ∀ filter : Selector,
        s.g_selection_filters.getD i none = some filter → filter entry = true) ∧
    (s.g_num_selection_filters = 0 → gets_selected s entry = true) ∧
    gets_selected State.start entry = true ∧
    gets_selected (add_selection_filter f State.start) entry = f entry ∧
    gets_selected (add_selection_filter g (add_selection_filter f State.start)) entry =
      (f entry && g entry) := by
  have hiff : gets_selected s entry = true ↔
      ∀ i, i < s.g_num_selection_filters → ∀ filter : Selector,
        s.g_selection_filters.getD i none = some filter → filter entry = true := by
    unfold gets_selected
    rw [gets_selected_loop_iff]
    constructor
    · intro h i hi
      exact h i (Nat.zero_le i) (by omega)
    · intro h j _ hj
      exact h j (by omega)
  refine ⟨hiff, ?_, rfl, ?_, ?_⟩
  · intro h0
    rw [hiff, h0]
    intro i hi
    omega
  · show gets_selected_loop _ entry 1 0 = f entry
    simp only [gets_selected_loop, add_selection_filter, State.start, List.set, List.getD_cons_zero]
    cases f entry <;> rfl
  · show gets_selected_loop _ entry 2 0 = (f entry && g entry)
    simp only [gets_selected_loop, add_selection_filter, State.start, List.set, List.getD_cons_zero,
      List.getD_cons_succ]
    cases f entry <;> cases g entry <;> rfl

/-- C8: starting with no block allocated and an entry count of 0, calling
`add_to_display_buffer` on each of `N` entries in turn, when no allocation
fails, returns with the entry count `N` and with cell `i` of the buffer holding
the `i`-th entry for every `i < N`, however often the block was doubled. -/
theorem append_all_round_trip (env : Env) (es : List dirent) (s : State)
    (hbuf : s.g_display_buffer = none) (hnum : s.g_num_entries_in_buffer = 0)
    (halloc : NoAllocFailure env es.length) :
    ∃ t, append_all env es s = Except.ok t ∧
      t.g_num_entries_in_buffer = es.length ∧
      ∀ i, i < es.length → t.heap[i]? = es[i]? := by
  have hinv : BufInv env s [] := ⟨hnum, fun _ => rfl, fun h => absurd hbuf h⟩
  obtain ⟨t, hrun, hinvt, _⟩ := append_all_inv env es s [] hinv (by simpa using halloc)
  rw [List.nil_append] at hinvt
  obtain ⟨hn, hnone, hsome⟩ := hinvt
  refine ⟨t, hrun, hn, ?_⟩
  intro i hi
  have hne : es ≠ [] := by
    intro h
    rw [h] at hi
    exact Nat.not_lt_zero i hi
  have hb : t.g_display_buffer ≠ none := fun h => hne (hnone h)
  obtain ⟨_, _, htake, _⟩ := hsome hb
  have h := congrArg (fun l : List dirent => l[i]?) htake
  simp only [List.getElem?_take, if_pos hi] at h
  exact h

theorem append_all_round_trip_witness :
    ∃ t, append_all (sample_env [] 1 []) nine_entries State.start = Except.ok t ∧
      t.g_num_entries_in_buffer = nine_entries.length ∧
      ∀ i, i < nine_entries.length → t.heap[i]? = nine_entries[i]? :=
  append_all_round_trip (sample_env [] 1 []) nine_entries State.start rfl rfl
    (sample_env_no_alloc_failure _ _ _ _ (by decide))

theorem append_all_append (env : Env) (l1 l2 : List dirent) :
    ∀ s, append_all env (l1 ++ l2) s =
      (append_all env l1 s).bind (fun t => append_all env l2 t) := by
  induction l1 with
  | nil => intro s; rfl
  | cons e r ih =>
    intro s
    simp only [List.cons_append, append_all, bind]
    cases add_to_display_buffer env e s with
    | error h => rfl
    | ok t => exact ih t

theorem eq_capacity_iff (n k : Nat) (hle : n ≤ 8 * 2 ^ k) (hleast : k = 0 ∨ 8 * 2 ^ (k - 1) < n) :
    n = 8 * 2 ^ k ↔ ∃ j, n = 8 * 2 ^ j := by
  constructor
  · intro h
    exact ⟨k, h⟩
  · rintro ⟨j, rfl⟩
    have hjk : j ≤ k := by
      have : 2 ^ j ≤ 2 ^ k := by omega
      exact (Nat.pow_le_pow_iff_right (by decide)).1 this
    rcases hleast with h0 | h1
    · have : j = 0 := by omega
      rw [this, h0]
    · have hlt : 2 ^ (k - 1) < 2 ^ j := by omega
      have : k - 1 < j := (Nat.pow_lt_pow_iff_right (by decide)).1 hlt
      have : j = k := by omega
      rw [this]

/-- C9: along a run of appends from the start state in which no allocation
fails, after `n` appends the capacity is 0 for `n = 0` and otherwise `8 * 2 ^ k`
for the least `k` with `n ≤ 8 * 2 ^ k`; the next append sets it to 8 when it
is the first, doubles it when `n` is `8 * 2 ^ j` for some `j`, and leaves it as
it is otherwise; so the capacity never decreases. -/
theorem capacity_doubles_from_eight (env : Env) (es : List dirent) (n : Nat)
    (halloc : NoAllocFailure env es.length) (hn : n ≤ es.length) :
    ∃ t, append_all env (es.take n) State.start = Except.ok t ∧
      (n = 0 → t.g_display_buffer_size = 0) ∧
      (0 < n → ∃ k, t.g_display_buffer_size = 8 * 2 ^ k ∧ n ≤ 8 * 2 ^ k ∧
        (k = 0 ∨ 8 * 2 ^ (k - 1) < n)) ∧
      (n < es.length →
        ∃ t', append_all env (es.take (n + 1)) State.start = Except.ok t' ∧
          t.g_display_buffer_size ≤ t'.g_display_buffer_size ∧
          (n = 0 → t'.g_display_buffer_size = 8) ∧
          (0 < n → (∃ j, n = 8 * 2 ^ j) →
            t'.g_display_buffer_size = 2 * t.g_display_buffer_size) ∧
          (0 < n → (¬ ∃ j, n = 8 * 2 ^ j) →
            t'.g_display_buffer_size = t.g_display_buffer_size)) := by
  have hlen : (es.take n).length = n := by rw [List.length_take]; omega
  have hinv0 : BufInv env State.start [] := ⟨rfl, fun _ => rfl, fun h => absurd rfl h⟩
  obtain ⟨t, hrun, hinvt, _⟩ := append_all_inv env (es.take n) State.start [] hinv0
    (halloc.mono (by simp))
  rw [List.nil_append] at hinvt
  have hcap : 0 < n → ∃ k, t.g_display_buffer_size = 8 * 2 ^ k ∧ n ≤ 8 * 2 ^ k ∧
      (k = 0 ∨ 8 * 2 ^ (k - 1) < n) := by
    intro hpos
    obtain ⟨_, hnone, hsome⟩ := hinvt
    have hne : es.take n ≠ [] := by
      intro h
      rw [h] at hlen
      have h0 : 0 = n := hlen
      omega
    obtain ⟨_, hheap, htake, _, k, hk, hleast⟩ := hsome (fun h => hne (hnone h))
    have hle : n ≤ t.g_display_buffer_size := by
      have := congrArg List.length htake
      rw [List.length_take, hlen] at this
      omega
    rw [hlen] at hleast
    exact ⟨k, hk, by omega, hleast⟩
  have hzero : n = 0 → t.g_display_buffer_size = 0 := by
    intro h0
    subst h0
    rw [List.take_zero] at hrun
    cases hrun
    rfl
  refine ⟨t, hrun, hzero, hcap, ?_⟩
  intro hlt
  have hsplit : es.take (n + 1) = es.take n ++ [es[n]] := by
    rw [List.take_succ, List.getElem?_eq_getElem hlt]
    rfl
  obtain ⟨t', hadd, _, _, hsize⟩ := add_to_display_buffer_step env es[n] t (es.take n) hinvt
    (halloc.mono (by rw [hlen]; omega))
  have hrun' : append_all env (es.take (n + 1)) State.start = Except.ok t' := by
    rw [hsplit, append_all_append, hrun]
    show append_all env [es[n]] t = _
    simp only [append_all, hadd, bind, Except.bind, pure, Except.pure]
  have hnil : es.take n = [] ↔ n = 0 := by
    constructor
    · intro h
      rw [h] at hlen
      exact hlen.symm
    · intro h
      rw [h, List.take_zero]
  rw [hlen] at hsize
  refine ⟨t', hrun', ?_, ?_, ?_, ?_⟩
  · rcases Nat.eq_zero_or_pos n with h0 | hpos
    · rw [hzero h0]
      exact Nat.zero_le _
    · rw [hsize, if_neg (fun h => by have := hnil.1 h; omega)]
      split_ifs <;> omega
  · intro h0
    rw [hsize, if_pos (hnil.2 h0)]
  · intro hpos hj
    obtain ⟨k, hk, hle, hleast⟩ := hcap hpos
    have hfull : n = t.g_display_buffer_size := by
      rw [hk]
      exact (eq_capacity_iff n k hle hleast).2 hj
    rw [hsize, if_neg (fun h => by have := hnil.1 h; omega), if_pos hfull]
  · intro hpos hj
    obtain ⟨k, hk, hle, hleast⟩ := hcap hpos
    have hroom : ¬ n = t.g_display_buffer_size := by
      intro h
      rw [hk] at h
      exact hj ((eq_capacity_iff n k hle hleast).1 h)
    rw [hsize, if_neg (fun h => by have := hnil.1 h; omega), if_neg hroom]

theorem capacity_doubles_from_eight_witness :
    ∃ t, append_all (sample_env [] 1 []) (nine_entries.take 8) State.start = Except.ok t ∧
      (8 = 0 → t.g_display_buffer_size = 0) ∧
      (0 < 8 → ∃ k, t.g_display_buffer_size = 8 * 2 ^ k ∧ 8 ≤ 8 * 2 ^ k ∧
        (k = 0 ∨ 8 * 2 ^ (k - 1) < 8)) ∧
      (8 < nine_entries.length →
        ∃ t', append_all (sample_env [] 1 []) (nine_entries.take (8 + 1)) State.start =
            Except.ok t' ∧
          t.g_display_buffer_size ≤ t'.g_display_buffer_size ∧
          (8 = 0 → t'.g_display_buffer_size = 8) ∧
          (0 < 8 → (∃ j, 8 = 8 * 2 ^ j) →
            t'.g_display_buffer_size = 2 * t.g_display_buffer_size) ∧
          (0 < 8 → (¬ ∃ j, 8 = 8 * 2 ^ j) →
            t'.g_display_buffer_size = t.g_display_buffer_size)) :=
  capacity_doubles_from_eight (sample_env [] 1 []) nine_entries 8
    (sample_env_no_alloc_failure _ _ _ _ (by decide)) (by decide)

/-- Two sorted lists with the same elements are equal when the order is
antisymmetric on those elements. -/
theorem eq_of_perm_of_pairwise {α : Type} (r : α → α → Prop) :
    ∀ l1 l2 : List α, l1.Perm l2 → l1.Pairwise r → l2.Pairwise r →
      (∀ x ∈ l1, ∀ y ∈ l1, r x y → r y x → x = y) → l1 = l2 := by
  intro l1
  induction l1 with
  | nil =>
    intro l2 hp _ _ _
    exact (List.Perm.nil_eq hp)
  | cons a t1 ih =>
    intro l2 hp h1 h2 hanti
    cases l2 with
    | nil => exact absurd (List.Perm.eq_nil hp) (List.cons_ne_nil a t1)
    | cons b t2 =>
      have hab : a = b := by
        by_contra hne
        have ha : a ∈ b :: t2 := hp.subset (List.mem_cons_self a t1)
        have hb : b ∈ a :: t1 := hp.symm.subset (List.mem_cons_self b t2)
        have ha2 : a ∈ t2 := by
          rcases List.mem_cons.1 ha with h | h
          · exact absurd h hne
          · exact h
        have hb1 : b ∈ t1 := by
          rcases List.mem_cons.1 hb with h | h
          · exact absurd h.symm hne
          · exact h
        have rab : r a b := List.rel_of_pairwise_cons h1 hb1
        have rba : r b a := List.rel_of_pairwise_cons h2 ha2
        exact hne (hanti a (List.mem_cons_self a t1) b hb rab rba)
      subst hab
      have hpt : t1.Perm t2 := List.Perm.cons_inv hp
      rw [ih t2 hpt (List.Pairwise.of_cons h1) (List.Pairwise.of_cons h2)
        (fun x hx y hy => hanti x (List.mem_cons_of_mem a hx) y (List.mem_cons_of_mem a hy))]

/-- The claim C10 as stated fails: a default run on the sample directory prints
`.hidden` first, not last. -/
theorem sample_run_prints_hidden_first :
    (main (sample_env [] 1 sample_dir) 1 ["ls".toList]).state.stdout =
      [".hidden".toList ++ [LF], "apple".toList ++ [LF], "Banana".toList ++ [LF]] ∧
    (main (sample_env [] 1 sample_dir) 1 ["ls".toList]).state.stdout ≠
      ["apple".toList ++ [LF], "Banana".toList ++ [LF], ".hidden".toList ++ [LF]] := by
  decide

/-- C10 (amended): for a directory whose entries are named `.`, `..`, `.hidden`,
`Banana` and `apple`, in any order of enumeration and with any `qsort`, a run
without flags in which the request for the first block is granted prints exactly
the three lines `.hidden`, `apple`, `Banana`, in that order. -/
theorem sample_dir_default_output (env : Env) (argc : Int) (argv : List (List Char))
    (cfg : State) (d : DIR)
    (hcfg : parse_args env argc argv State.start = Except.ok cfg)
    (hdefault : (env.getopt argc argv).1 = [])
    (hopen : env.opendir cfg.g_directory_name = Except.ok d)
    (hdir : (d.entries.map (fun e => c_str e.d_name)).Perm
      [".".toList, "..".toList, ".hidden".toList, "Banana".toList, "apple".toList])
    (halloc : (env.alloc 8).isSome = true) :
    (main env argc argv).state.stdout =
      [".hidden".toList ++ [LF], "apple".toList ++ [LF], "Banana".toList ++ [LF]] := by
  have hflag := (parse_args_flags env argc argv cfg hcfg).2.2
  have hu1 : cfg.opt_unordered = false := by rw [hflag, hdefault]; rfl
  have hsel : ∀ e, gets_selected cfg e =
      (fun nm : List Char => !(decide (nm = ['.']) || decide (nm = ['.', '.'])))
        (c_str e.d_name) := by
    intro e
    rw [gets_selected_parse_args env argc argv cfg hcfg e, hdefault]
    have h1 := no_dot_dir_eq_false_iff e
    cases hg : no_dot_dir e
    · rcases h1.1 hg with h | h <;> rw [h] <;> rfl
    · have hn : ¬ (c_str e.d_name = ['.'] ∨ c_str e.d_name = ['.', '.']) := by
        intro h
        rw [h1.2 h] at hg
        cases hg
      obtain ⟨h2, h3⟩ := not_or.1 hn
      simp [h2, h3]
  have hfun : gets_selected cfg =
      (fun nm : List Char => !(decide (nm = ['.']) || decide (nm = ['.', '.']))) ∘
        (fun e => c_str e.d_name) := funext hsel
  have hnames : ((d.entries.filter (gets_selected cfg)).map (fun e => c_str e.d_name)).Perm
      [".hidden".toList, "Banana".toList, "apple".toList] := by
    rw [hfun, ← List.filter_map]
    exact hdir.filter _
  have hlen : (d.entries.filter (gets_selected cfg)).length = 3 := by
    have := hnames.length_eq
    simpa using this
  have hN : NoAllocFailure env (d.entries.filter (gets_selected cfg)).length := by
    rw [hlen]
    intro j _ hj
    have hj0 : j = 0 := by
      rcases hj with h | h
      · exact h
      · have : 0 < 2 ^ (j - 1) := Nat.pos_pow_of_pos _ (by decide)
        omega
    rw [hj0]
    exact halloc
  rw [(main_buffered env argc argv cfg d hcfg hu1 hopen hN).2]
  symm
  apply eq_of_perm_of_pairwise (fun x y => compare_entries ⟨x.dropLast⟩ ⟨y.dropLast⟩ ≤ 0)
  · have h1 : ((env.qsort.sort compare_entries (d.entries.filter (gets_selected cfg))).map
        line).Perm ((d.entries.filter (gets_selected cfg)).map line) :=
      (env.qsort.perm compare_entries _).map line
    have h2 : (d.entries.filter (gets_selected cfg)).map line =
        ((d.entries.filter (gets_selected cfg)).map (fun e => c_str e.d_name)).map
          (fun nm => nm ++ [LF]) := by
      rw [List.map_map]
      rfl
    rw [h2] at h1
    exact (h1.trans ((hnames.map _).trans (by decide))).symm
  · decide
  · rw [List.pairwise_map]
    refine (env.qsort.sorted compare_entries compare_entries_consistent _).imp ?_
    intro a b hab
    rw [compare_entries_line]
    exact hab
  · decide

theorem sample_dir_default_output_witness :
    (main (sample_env [] 1 sample_dir.reverse) 1 ["ls".toList]).state.stdout =
      [".hidden".toList ++ [LF], "apple".toList ++ [LF], "Banana".toList ++ [LF]] :=
  sample_dir_default_output (sample_env [] 1 sample_dir.reverse) 1 ["ls".toList]
    (configured false false false CWD_SHORT) ⟨3, sample_dir.reverse⟩ rfl rfl rfl
    (by decide) rfl

theorem no_dot_dir_ne_not_starting_with_dot : no_dot_dir ≠ not_starting_with_dot := by
  intro h
  have h1 := congrFun h ⟨".hidden".toList⟩
  revert h1
  decide

/-- C11: for every combination of `-a` and `-n` (and `-u`), when at most one
positional argument is left, `finish_args` returns with the array of two cells
holding, in its first `g_num_selection_filters` cells, `no_dot_dir` if `-a` is
absent followed by `not_starting_with_dot` if `-n` is present, and nothing else;
the count is at most 2, the size of the array, so every write of
`add_selection_filter` lands inside the array. -/
theorem finish_args_builds_chain (argc : Int) (argv : List (List Char)) (optind : Int)
    (a n u : Bool) (hpos : optind = argc - 1 ∨ argc ≤ optind) :
    ∃ cfg, finish_args argc argv optind
        { State.start with opt_show_dot_dirs := a, opt_no_dotfiles := n, opt_unordered := u } =
        Except.ok cfg ∧
      cfg.g_selection_filters.length = 2 ∧
      cfg.g_num_selection_filters ≤ 2 ∧
      cfg.g_num_selection_filters = (if a then 0 else 1) + (if n then 1 else 0) ∧
      cfg.g_selection_filters.take cfg.g_num_selection_filters =
        (if a then [] else [some no_dot_dir]) ++
          (if n then [some not_starting_with_dot] else []) ∧
      (some no_dot_dir ∈ cfg.g_selection_filters.take cfg.g_num_selection_filters ↔
        a = false) ∧
      (some not_starting_with_dot ∈ cfg.g_selection_filters.take cfg.g_num_selection_filters ↔
        n = true) := by
  have hne := no_dot_dir_ne_not_starting_with_dot
  refine ⟨_, finish_args_flags argc argv optind a n u hpos, ?_⟩
  cases a <;> cases n <;>
    simp [configured, State.start, hne, Ne.symm hne]

theorem finish_args_builds_chain_witness :
    ∃ cfg, finish_args 2 ["ls".toList, "-n".toList] 2
        { State.start with
          opt_show_dot_dirs := false, opt_no_dotfiles := true, opt_unordered := false } =
        Except.ok cfg ∧
      cfg.g_selection_filters.length = 2 ∧
      cfg.g_num_selection_filters ≤ 2 ∧
      cfg.g_num_selection_filters = (if false then 0 else 1) + (if true then 1 else 0) ∧
      cfg.g_selection_filters.take cfg.g_num_selection_filters =
        (if false then [] else [some no_dot_dir]) ++
          (if true then [some not_starting_with_dot] else []) ∧
      (some no_dot_dir ∈ cfg.g_selection_filters.take cfg.g_num_selection_filters ↔
        false = false) ∧
      (some not_starting_with_dot ∈ cfg.g_selection_filters.take cfg.g_num_selection_filters ↔
        true = true) :=
  finish_args_builds_chain 2 ["ls".toList, "-n".toList] 2 false true false (Or.inr (by decide))

theorem double_mod_le_iff (c M : Nat) (hpos : 0 < c) (hlt : c < M) :
    (2 * c) % M ≤ c ↔ M ≤ 2 * c := by
  constructor
  · intro h
    by_contra hn
    rw [Nat.mod_eq_of_lt (by omega)] at h
    omega
  · intro h
    rw [Nat.mod_eq_sub_mod h, Nat.mod_eq_of_lt (by omega)]
    omega

/-- C12: for a capacity `c` with `0 < c < 2 ^ w`, the overflow test of
`redouble_display_buffer` holds exactly when `2 * c` does not fit in `size_t`;
then the function ends the process through the overflow branch; and when
`2 * c` fits it asks the allocator for `2 * c` cells and installs exactly that
capacity if the request is granted. -/
theorem redouble_overflow_test (env : Env) (s : State)
    (hpos : 0 < s.g_display_buffer_size)
    (hlt : s.g_display_buffer_size < 2 ^ env.size_bits) :
    ((2 * s.g_display_buffer_size) % 2 ^ env.size_bits ≤ s.g_display_buffer_size ↔
      2 ^ env.size_bits ≤ 2 * s.g_display_buffer_size) ∧
    (2 ^ env.size_bits ≤ 2 * s.g_display_buffer_size →
      redouble_display_buffer env s = Except.error (free_and_exit EXIT_FAILURE
        { s with stderr := s.stderr ++ ["add_to_display_buffer: overflow".toList ++ [LF]] })) ∧
    (2 * s.g_display_buffer_size < 2 ^ env.size_bits →
      redouble_display_buffer env s =
        match env.alloc (2 * s.g_display_buffer_size) with
        | none => Except.error (free_and_exit EXIT_FAILURE
            { s with
              stderr := s.stderr ++ ["reallocarray: ".toList ++ env.strerror ENOMEM ++ [LF]] })
        | some p => Except.ok
            { s with
              g_display_buffer := some p
              heap := realloc_cells env s.heap (2 * s.g_display_buffer_size)
              g_display_buffer_size := 2 * s.g_display_buffer_size
              g_resources := { s.g_resources with display_buffer := some p } }) := by
  have htest := double_mod_le_iff s.g_display_buffer_size (2 ^ env.size_bits) hpos hlt
  refine ⟨htest, ?_, ?_⟩
  · intro h
    unfold redouble_display_buffer
    simp only [if_pos (htest.2 h)]
    rfl
  · intro h
    have hno : ¬ 2 * s.g_display_buffer_size ≤ s.g_display_buffer_size := by omega
    have hmod : (2 * s.g_display_buffer_size) % 2 ^ env.size_bits = 2 * s.g_display_buffer_size :=
      Nat.mod_eq_of_lt h
    unfold redouble_display_buffer
    simp only [hmod, if_neg hno]
    cases env.alloc (2 * s.g_display_buffer_size) <;> rfl

theorem redouble_overflow_test_witness :
    redouble_display_buffer (sample_env [] 1 [])
        { State.start with g_display_buffer_size := 2 ^ 63 } =
      Except.error (free_and_exit EXIT_FAILURE
        { State.start with
          g_display_buffer_size := 2 ^ 63
          stderr := ["add_to_display_buffer: overflow".toList ++ [LF]] }) :=
  (redouble_overflow_test (sample_env [] 1 [])
    { State.start with g_display_buffer_size := 2 ^ 63 } (by decide) (by decide)).2.1 (by decide)

/-- With two or more positional arguments left `finish_args` ends the process
with the usage message, before it touches the state. -/
theorem finish_args_usage (argc : Int) (argv : List (List Char)) (optind : Int) (s : State)
    (h : optind + 2 ≤ argc) :
    finish_args argc argv optind s = Except.error (fail_with_usage_msg argv s) := by
  have h1 : ¬ optind = argc - 1 := by omega
  have h2 : optind < argc := by omega
  unfold finish_args
  simp only [if_neg h1, if_pos h2]
  rfl

/-- The usage message of `finish_args`, read from the rearranged vector, names
the program by the caller's `argv[0]`. -/
theorem usage_msg_getopt_argv (env : Env) (argc : Int) (argv : List (List Char)) :
    usage_msg (env.getopt_argv argc argv) =
      "Usage: ".toList ++ c_str (argv.getD 0 []) ++ " [-ahnu] [directory_name]".toList ++
        [LF] := by
  unfold usage_msg
  rw [env.getopt_argv_zero argc argv]

/-- C13: when only the flags `a`, `n`, `u` were seen, so that `finish_args` is
reached, with `optind` the index `getopt` leaves and the vector as `getopt` has
rearranged it: with no positional argument left the run goes on with the
directory name `.`; with one left, with that argument, the element at `optind`
of the rearranged vector; with two or more left, `main` ends in `finish_args`
with the failure status and, as the only output, the line
`Usage: <argv[0]> [-ahnu] [directory_name]` on standard error, with no filter
installed, no directory opened and nothing released. For any state,
`finish_args` with two or more arguments left is that usage failure on the
state. -/
theorem positional_arguments (env : Env) (argc : Int) (argv : List (List Char))
    (hopts : ∀ c ∈ (env.getopt argc argv).1, c = 'a' ∨ c = 'n' ∨ c = 'u') :
    ((env.getopt argc argv).2 = argc →
      ∃ cfg, parse_args env argc argv State.start = Except.ok cfg ∧
        cfg.g_directory_name = ['.']) ∧
    ((env.getopt argc argv).2 = argc - 1 →
      ∃ cfg, parse_args env argc argv State.start = Except.ok cfg ∧
        cfg.g_directory_name =
          (env.getopt_argv argc argv).getD (env.getopt argc argv).2.toNat []) ∧
    ((env.getopt argc argv).2 + 2 ≤ argc →
      ∃ s, main env argc argv = ⟨EXIT_FAILURE, s⟩ ∧
        s.stderr = ["Usage: ".toList ++ c_str (argv.getD 0 []) ++
          " [-ahnu] [directory_name]".toList ++ [LF]] ∧
        s.stdout = [] ∧
        s.g_num_selection_filters = 0 ∧ s.g_selection_filters = [none, none] ∧
        s.g_resources.directory = none ∧ s.trace = []) ∧
    (∀ s : State, (env.getopt argc argv).2 + 2 ≤ argc →
      finish_args argc (env.getopt_argv argc argv) (env.getopt argc argv).2 s =
        Except.error ⟨EXIT_FAILURE,
          { s with
            stderr := s.stderr ++ ["Usage: ".toList ++ c_str (argv.getD 0 []) ++
              " [-ahnu] [directory_name]".toList ++ [LF]] }⟩) := by
  have hmsg := usage_msg_getopt_argv env argc argv
  refine ⟨?_, ?_, ?_, ?_⟩
  · intro h
    refine ⟨_, (parse_args_start env argc argv _).2 ⟨hopts, Or.inr (le_of_eq h.symm), rfl⟩, ?_⟩
    have hne : ¬ (env.getopt argc argv).2 = argc - 1 := by omega
    show (if (env.getopt argc argv).2 = argc - 1 then _ else CWD_SHORT) = _
    rw [if_neg hne]
    rfl
  · intro h
    refine ⟨_, (parse_args_start env argc argv _).2 ⟨hopts, Or.inl h, rfl⟩, ?_⟩
    show (if (env.getopt argc argv).2 = argc - 1 then _ else CWD_SHORT) = _
    rw [if_pos h]
  · intro h
    have hloop := parse_args_loop_ok (env.getopt_diag argc argv) argv _ 0 State.start hopts
    have hparse : parse_args env argc argv State.start = Except.error
        (fail_with_usage_msg (env.getopt_argv argc argv)
          { State.start with
            opt_show_dot_dirs := State.start.opt_show_dot_dirs ||
              decide ('a' ∈ (env.getopt argc argv).1)
            opt_no_dotfiles := State.start.opt_no_dotfiles ||
              decide ('n' ∈ (env.getopt argc argv).1)
            opt_unordered := State.start.opt_unordered ||
              decide ('u' ∈ (env.getopt argc argv).1) }) := by
      simp only [parse_args, hloop, bind, Except.bind]
      exact finish_args_usage argc _ _ _ h
    have hmain : main env argc argv = fail_with_usage_msg (env.getopt_argv argc argv)
        { State.start with
          opt_show_dot_dirs := State.start.opt_show_dot_dirs ||
            decide ('a' ∈ (env.getopt argc argv).1)
          opt_no_dotfiles := State.start.opt_no_dotfiles ||
            decide ('n' ∈ (env.getopt argc argv).1)
          opt_unordered := State.start.opt_unordered ||
            decide ('u' ∈ (env.getopt argc argv).1) } := by
      unfold main
      rw [hparse]
    refine ⟨_, hmain, ?_, rfl, rfl, rfl, rfl, rfl⟩
    show [] ++ [usage_msg (env.getopt_argv argc argv)] = _
    rw [hmsg]
    rfl
  · intro s h
    rw [finish_args_usage argc _ _ s h, ← hmsg]
    rfl

theorem positional_arguments_witness :
    ∃ cfg, parse_args
        (sample_env_permuting ["ls".toList, "d".toList, "-a".toList]
          ["ls".toList, "-a".toList, "d".toList] rfl ['a'] 2 sample_dir)
        3 ["ls".toList, "d".toList, "-a".toList] State.start = Except.ok cfg ∧
      cfg.g_directory_name = "d".toList := by
  obtain ⟨cfg, h1, h2⟩ := (positional_arguments
    (sample_env_permuting ["ls".toList, "d".toList, "-a".toList]
      ["ls".toList, "-a".toList, "d".toList] rfl ['a'] 2 sample_dir)
    3 ["ls".toList, "d".toList, "-a".toList] (by decide)).2.1 (by decide)
  exact ⟨cfg, h1, h2.trans (by decide)⟩

/-! ## Runs that end in a failure -/

/-- The first append when `calloc` returns the null pointer. -/
theorem add_to_display_buffer_init_fail (env : Env) (entry : dirent) (s : State)
    (hbuf : s.g_display_buffer = none) (halloc : env.alloc 8 = none) :
    add_to_display_buffer env entry s = Except.error (free_and_exit EXIT_FAILURE
      { s with
        g_display_buffer := none
        stderr := s.stderr ++ ["calloc: ".toList ++ env.strerror ENOMEM ++ [LF]] }) := by
  simp only [add_to_display_buffer, hbuf, Option.isNone_none, if_true, init_display_buffer,
    DISPLAY_BUF_INITIAL_NUM_BLOCKS, halloc, bind, Except.bind, throw, throwThe,
    MonadExceptOf.throw]

/-- The append that finds the block full when the doubled size wraps around. -/
theorem add_to_display_buffer_overflow (env : Env) (entry : dirent) (s : State) (q : Nat)
    (hbuf : s.g_display_buffer = some q)
    (hfull : s.g_num_entries_in_buffer = s.g_display_buffer_size)
    (hwrap : (2 * s.g_display_buffer_size) % 2 ^ env.size_bits ≤ s.g_display_buffer_size) :
    add_to_display_buffer env entry s = Except.error (free_and_exit EXIT_FAILURE
      { s with stderr := s.stderr ++ ["add_to_display_buffer: overflow".toList ++ [LF]] }) := by
  simp only [add_to_display_buffer, hbuf, Option.isNone_some, hfull, if_true,
    redouble_display_buffer, hwrap, bind, Except.bind, throw, throwThe, MonadExceptOf.throw]
  simp

/-- The append that finds the block full when `reallocarray` returns the null
pointer. -/
theorem add_to_display_buffer_grow_fail (env : Env) (entry : dirent) (s : State) (q : Nat)
    (hbuf : s.g_display_buffer = some q)
    (hfull : s.g_num_entries_in_buffer = s.g_display_buffer_size)
    (hwrap : ¬ (2 * s.g_display_buffer_size) % 2 ^ env.size_bits ≤ s.g_display_buffer_size)
    (halloc : env.alloc ((2 * s.g_display_buffer_size) % 2 ^ env.size_bits) = none) :
    add_to_display_buffer env entry s = Except.error (free_and_exit EXIT_FAILURE
      { s with
        stderr := s.stderr ++ ["reallocarray: ".toList ++ env.strerror ENOMEM ++ [LF]] }) := by
  simp only [add_to_display_buffer, hbuf, Option.isNone_some, hfull, if_true,
    redouble_display_buffer, hwrap, if_false, halloc, bind, Except.bind, throw, throwThe,
    MonadExceptOf.throw]
  simp

/-- The append that finds the block full when `reallocarray` grants the doubled
size. -/
theorem add_to_display_buffer_grow_mod (env : Env) (entry : dirent) (s : State) (p q : Nat)
    (hbuf : s.g_display_buffer = some q)
    (hfull : s.g_num_entries_in_buffer = s.g_display_buffer_size)
    (hwrap : ¬ (2 * s.g_display_buffer_size) % 2 ^ env.size_bits ≤ s.g_display_buffer_size)
    (halloc : env.alloc ((2 * s.g_display_buffer_size) % 2 ^ env.size_bits) = some p) :
    add_to_display_buffer env entry s = Except.ok
      { s with
        g_display_buffer := some p
        heap := (realloc_cells env s.heap
          ((2 * s.g_display_buffer_size) % 2 ^ env.size_bits)).set
            s.g_num_entries_in_buffer entry
        g_display_buffer_size := (2 * s.g_display_buffer_size) % 2 ^ env.size_bits
        g_resources := { s.g_resources with display_buffer := some p }
        g_num_entries_in_buffer := (s.g_num_entries_in_buffer + 1) % 2 ^ env.size_bits } := by
  simp only [add_to_display_buffer, hbuf, Option.isNone_some, hfull, if_true,
    redouble_display_buffer, hwrap, if_false, halloc, bind, Except.bind, pure, Except.pure]
  simp

theorem SameOutsideBuffer.sameControl {s t : State} (h : SameOutsideBuffer s t) :
    SameControl s t :=
  ⟨h.trace, h.directory, h.g_handler, h.g_printer, by rw [h], by rw [h]⟩

theorem sameControl_refl (s : State) : SameControl s s := ⟨rfl, rfl, rfl, rfl, rfl, rfl⟩

theorem sameControl_trans {s t r : State} (h1 : SameControl s t) (h2 : SameControl t r) :
    SameControl s r :=
  ⟨h2.1.trans h1.1, h2.2.1.trans h1.2.1, h2.2.2.1.trans h1.2.2.1,
    h2.2.2.2.1.trans h1.2.2.2.1, h2.2.2.2.2.1.trans h1.2.2.2.2.1,
    h2.2.2.2.2.2.trans h1.2.2.2.2.2⟩

/-- Every call of `add_to_display_buffer`, in any state, either returns a state
that differs in the display buffer only, or ends the process through
`free_and_exit` with the failure status, from a state with the same buffer
pointer and the same output. -/
theorem add_to_display_buffer_cases (env : Env) (entry : dirent) (s : State) :
    (∃ t, add_to_display_buffer env entry s = Except.ok t ∧ SameOutsideBuffer s t ∧
      (Tracked s → Tracked t)) ∨
    (∃ r, add_to_display_buffer env entry s = Except.error (free_and_exit EXIT_FAILURE r) ∧
      SameControl s r ∧ r.stdout = s.stdout ∧ (Tracked s → Tracked r) ∧
      r.g_display_buffer = s.g_display_buffer) := by
  by_cases hbuf : s.g_display_buffer = none
  · cases halloc : env.alloc 8 with
    | none =>
      right
      refine ⟨_, add_to_display_buffer_init_fail env entry s hbuf halloc,
        ⟨rfl, rfl, rfl, rfl, rfl, rfl⟩, rfl, ?_, hbuf.symm⟩
      intro ht
      exact ht.trans hbuf
    | some p =>
      left
      exact ⟨_, add_to_display_buffer_init env entry s p hbuf halloc, rfl, fun _ => rfl⟩
  · obtain ⟨q, hq⟩ := Option.ne_none_iff_exists'.1 hbuf
    by_cases hfull : s.g_num_entries_in_buffer = s.g_display_buffer_size
    · by_cases hwrap :
          (2 * s.g_display_buffer_size) % 2 ^ env.size_bits ≤ s.g_display_buffer_size
      · right
        exact ⟨_, add_to_display_buffer_overflow env entry s q hq hfull hwrap,
          ⟨rfl, rfl, rfl, rfl, rfl, rfl⟩, rfl, fun ht => ht, rfl⟩
      · cases halloc : env.alloc ((2 * s.g_display_buffer_size) % 2 ^ env.size_bits) with
        | none =>
          right
          exact ⟨_, add_to_display_buffer_grow_fail env entry s q hq hfull hwrap halloc,
            ⟨rfl, rfl, rfl, rfl, rfl, rfl⟩, rfl, fun ht => ht, rfl⟩
        | some p =>
          left
          exact ⟨_, add_to_display_buffer_grow_mod env entry s p q hq hfull hwrap halloc, rfl,
            fun _ => rfl⟩
    · left
      exact ⟨_, add_to_display_buffer_room env entry s q hq hfull, rfl, fun ht => ht⟩

/-- An append that returns has kept the buffer invariant, with the entry added at
the end and written to a cell inside the block. -/
theorem add_to_display_buffer_ok_inv (env : Env) (entry : dirent) (s t : State)
    (l : List dirent) (hinv : BufInv env s l)
    (hok : add_to_display_buffer env entry s = Except.ok t) :
    BufInv env t (l ++ [entry]) ∧ SameOutsideBuffer s t ∧
      s.g_num_entries_in_buffer < t.g_display_buffer_size ∧
      t.g_num_entries_in_buffer = s.g_num_entries_in_buffer + 1 ∧
      t.heap[s.g_num_entries_in_buffer]? = some entry := by
  have hw := two_pow_size_bits env
  obtain ⟨hnum, hnone, hsome⟩ := hinv
  by_cases hbuf : s.g_display_buffer = none
  · have hl : l = [] := hnone hbuf
    subst hl
    have hnum0 : s.g_num_entries_in_buffer = 0 := hnum
    cases halloc : env.alloc 8 with
    | none =>
      rw [add_to_display_buffer_init_fail env entry s hbuf halloc] at hok
      cases hok
    | some p =>
      have hfit := env.alloc_fits 8 p halloc
      rw [add_to_display_buffer_init env entry s p hbuf halloc] at hok
      have ht := (Except.ok.inj hok).symm
      subst ht
      have hmod : (s.g_num_entries_in_buffer + 1) % 2 ^ env.size_bits = 1 := by
        rw [hnum0]
        exact Nat.mod_eq_of_lt (by omega)
      refine ⟨⟨hmod, ?_, ?_⟩, rfl, ?_, ?_, ?_⟩
      · intro h; cases h
      · intro _
        refine ⟨by simp, ?_, ?_, hfit, 0, rfl, Or.inl rfl⟩
        · show ((List.replicate 8 zero_dirent).set _ entry).length = 8
          simp
        · show ((List.replicate 8 zero_dirent).set s.g_num_entries_in_buffer entry).take 1 =
            [entry]
          rw [hnum0]
          rfl
      · show s.g_num_entries_in_buffer < 8
        omega
      · show (s.g_num_entries_in_buffer + 1) % 2 ^ env.size_bits = _
        rw [hmod, hnum0]
      · show ((List.replicate 8 zero_dirent).set s.g_num_entries_in_buffer entry)[
          s.g_num_entries_in_buffer]? = some entry
        rw [hnum0]
        rfl
  · obtain ⟨q, hq⟩ := Option.ne_none_iff_exists'.1 hbuf
    obtain ⟨hne, hlen, htake, hfit, k, hk, hleast⟩ := hsome hbuf
    have hle : l.length ≤ s.g_display_buffer_size := by
      have := congrArg List.length htake
      rw [List.length_take] at this
      omega
    have hsz := env.sizeof_dirent_ge
    have h2 : 2 * s.g_display_buffer_size < 2 ^ env.size_bits := by
      calc 2 * s.g_display_buffer_size ≤ s.g_display_buffer_size * env.sizeof_dirent := by
            rw [Nat.mul_comm]; exact Nat.mul_le_mul_left _ hsz
        _ < 2 ^ env.size_bits := hfit
    have hkpos : 0 < s.g_display_buffer_size := by rw [hk]; positivity
    have hmod : (s.g_num_entries_in_buffer + 1) % 2 ^ env.size_bits =
        s.g_num_entries_in_buffer + 1 := Nat.mod_eq_of_lt (by omega)
    by_cases hfull : s.g_num_entries_in_buffer = s.g_display_buffer_size
    · have hmod2 : (2 * s.g_display_buffer_size) % 2 ^ env.size_bits =
          2 * s.g_display_buffer_size := Nat.mod_eq_of_lt h2
      have hwrap : ¬ (2 * s.g_display_buffer_size) % 2 ^ env.size_bits ≤
          s.g_display_buffer_size := by rw [hmod2]; omega
      cases halloc : env.alloc ((2 * s.g_display_buffer_size) % 2 ^ env.size_bits) with
      | none =>
        rw [add_to_display_buffer_grow_fail env entry s q hq hfull hwrap halloc] at hok
        cases hok
      | some p =>
        rw [hmod2] at halloc
        have hfit2 := env.alloc_fits _ p halloc
        rw [add_to_display_buffer_grow env entry s p q hq hfull h2 hkpos halloc] at hok
        have ht := (Except.ok.inj hok).symm
        subst ht
        have hl2 : s.heap.length ≤ 2 * s.g_display_buffer_size := by omega
        have hdouble : 2 * s.g_display_buffer_size = 8 * 2 ^ (k + 1) := by
          rw [hk, pow_succ]; ring
        have hin : s.g_num_entries_in_buffer <
            (realloc_cells env s.heap (2 * s.g_display_buffer_size)).length := by
          rw [realloc_cells_length env _ _ hl2]; omega
        refine ⟨⟨?_, ?_, ?_⟩, rfl, ?_, hmod, ?_⟩
        · show (s.g_num_entries_in_buffer + 1) % 2 ^ env.size_bits = (l ++ [entry]).length
          rw [List.length_append, List.length_singleton, hmod, hnum]
        · intro h; cases h
        · intro _
          refine ⟨by simp, ?_, ?_, hfit2, k + 1, hdouble, Or.inr ?_⟩
          · show ((realloc_cells env s.heap _).set _ entry).length = _
            rw [List.length_set, realloc_cells_length env _ _ hl2]
          · show ((realloc_cells env s.heap _).set s.g_num_entries_in_buffer entry).take
              (l ++ [entry]).length = l ++ [entry]
            rw [List.length_append, List.length_singleton, ← hnum,
              take_succ_set entry _ _ hin]
            have hll : s.g_num_entries_in_buffer = s.heap.length := by omega
            rw [hll, realloc_cells_take env _ _ hl2]
            rw [← hnum, hll, List.take_length] at htake
            rw [htake]
          · simp only [Nat.add_sub_cancel, List.length_append, List.length_singleton]
            omega
        · show s.g_num_entries_in_buffer < 2 * s.g_display_buffer_size
          omega
        · show ((realloc_cells env s.heap _).set s.g_num_entries_in_buffer entry)[
            s.g_num_entries_in_buffer]? = some entry
          exact List.getElem?_set_self hin
    · have hlt : l.length < s.g_display_buffer_size := by omega
      rw [add_to_display_buffer_room env entry s q hq hfull] at hok
      have ht := (Except.ok.inj hok).symm
      subst ht
      have hin : s.g_num_entries_in_buffer < s.heap.length := by omega
      refine ⟨⟨?_, ?_, ?_⟩, rfl, ?_, hmod, ?_⟩
      · show (s.g_num_entries_in_buffer + 1) % 2 ^ env.size_bits = (l ++ [entry]).length
        rw [List.length_append, List.length_singleton, hmod, hnum]
      · intro h
        exact absurd h hbuf
      · intro _
        refine ⟨by simp, ?_, ?_, hfit, k, hk, ?_⟩
        · show (s.heap.set _ entry).length = _
          rw [List.length_set, hlen]
        · show (s.heap.set s.g_num_entries_in_buffer entry).take (l ++ [entry]).length = _
          rw [List.length_append, List.length_singleton, ← hnum,
            take_succ_set entry _ _ hin, hnum, htake]
        · rcases hleast with h0 | h1
          · exact Or.inl h0
          · right
            simp only [List.length_append, List.length_singleton]
            omega
      · show s.g_num_entries_in_buffer < s.g_display_buffer_size
        omega
      · show (s.heap.set s.g_num_entries_in_buffer entry)[s.g_num_entries_in_buffer]? =
          some entry
        exact List.getElem?_set_self hin

/-- A run of appends that returns has kept the buffer invariant. -/
theorem append_all_ok_inv (env : Env) (es : List dirent) :
    ∀ (s t : State) (l : List dirent), BufInv env s l →
      append_all env es s = Except.ok t → BufInv env t (l ++ es) := by
  induction es with
  | nil =>
    intro s t l hinv hok
    have ht : s = t := Except.ok.inj hok
    subst ht
    simpa using hinv
  | cons e rest ih =>
    intro s t l hinv hok
    cases hadd : add_to_display_buffer env e s with
    | error h =>
      simp only [append_all, hadd, bind, Except.bind] at hok
      cases hok
    | ok t1 =>
      simp only [append_all, hadd, bind, Except.bind] at hok
      have h1 := (add_to_display_buffer_ok_inv env e s t1 l hinv hadd).1
      have h2 := ih t1 t (l ++ [e]) h1 hok
      simpa using h2

/-- The invariant gives `length ≤ capacity`. -/
theorem BufInv.num_le_size {env : Env} {s : State} {l : List dirent} (h : BufInv env s l) :
    s.g_num_entries_in_buffer ≤ s.g_display_buffer_size := by
  obtain ⟨hnum, hnone, hsome⟩ := h
  by_cases hbuf : s.g_display_buffer = none
  · rw [hnum, hnone hbuf]
    exact Nat.zero_le _
  · obtain ⟨_, hlen, htake, _⟩ := hsome hbuf
    have := congrArg List.length htake
    rw [List.length_take] at this
    omega

/-- C15: `length ≤ capacity` holds in the start state and in every state reached
from a state without a block and with the count 0 by calls of
`add_to_display_buffer` that return; and a further call that returns writes the
entry to the cell whose index is the old count, an index below the capacity the
call leaves, and leaves `length ≤ capacity` again. -/
theorem length_le_capacity_invariant (env : Env) (s0 t : State) (es : List dirent)
    (hbuf : s0.g_display_buffer = none) (hnum : s0.g_num_entries_in_buffer = 0)
    (hrun : append_all env es s0 = Except.ok t) :
    State.start.g_num_entries_in_buffer ≤ State.start.g_display_buffer_size ∧
    s0.g_num_entries_in_buffer ≤ s0.g_display_buffer_size ∧
    t.g_num_entries_in_buffer ≤ t.g_display_buffer_size ∧
    ∀ entry t', add_to_display_buffer env entry t = Except.ok t' →
      t.g_num_entries_in_buffer < t'.g_display_buffer_size ∧
      t'.heap.length = t'.g_display_buffer_size ∧
      t'.heap[t.g_num_entries_in_buffer]? = some entry ∧
      t'.g_num_entries_in_buffer ≤ t'.g_display_buffer_size := by
  have hinv0 : BufInv env s0 [] := ⟨hnum, fun _ => rfl, fun h => absurd hbuf h⟩
  have hinv := append_all_ok_inv env es s0 t [] hinv0 hrun
  refine ⟨Nat.le_refl 0, by rw [hnum]; exact Nat.zero_le _, hinv.num_le_size, ?_⟩
  intro entry t' hadd
  obtain ⟨hinv', _, hlt, _, hcell⟩ := add_to_display_buffer_ok_inv env entry t t' _ hinv hadd
  refine ⟨hlt, ?_, hcell, hinv'.num_le_size⟩
  obtain ⟨_, hnone, hsome⟩ := hinv'
  have hb : t'.g_display_buffer ≠ none := by
    intro h
    have := hnone h
    simp at this
  exact (hsome hb).2.1

theorem length_le_capacity_invariant_witness :
    ∃ t, append_all (sample_env [] 1 []) nine_entries State.start = Except.ok t ∧
      t.g_num_entries_in_buffer ≤ t.g_display_buffer_size := by
  obtain ⟨t, ht, _⟩ := append_all_inv (sample_env [] 1 []) nine_entries State.start []
    ⟨rfl, fun _ => rfl, fun h => absurd rfl h⟩
    (sample_env_no_alloc_failure _ _ _ _ (by decide))
  exact ⟨t, ht, (length_le_capacity_invariant (sample_env [] 1 []) State.start t nine_entries
    rfl rfl ht).2.2.1⟩

theorem print_name_sameControl (entry : dirent) (s : State) :
    SameControl s (print_name entry s) := ⟨rfl, rfl, rfl, rfl, rfl, rfl⟩

/-- Every run of `read_entries`, in any state, either returns, or ends the
process through `free_and_exit` with the failure status; the release trace, the
directory slot and the configuration are as before, and the resource record
still knows the block. -/
theorem read_entries_loop_cases (env : Env) (es : List dirent) :
    ∀ s : State,
      (∃ t, read_entries_loop env es s = Except.ok t ∧ SameControl s t ∧
        (Tracked s → Tracked t)) ∨
      (∃ r, read_entries_loop env es s = Except.error (free_and_exit EXIT_FAILURE r) ∧
        SameControl s r ∧ (Tracked s → Tracked r)) := by
  induction es with
  | nil =>
    intro s
    exact Or.inl ⟨s, rfl, sameControl_refl s, fun h => h⟩
  | cons e rest ih =>
    intro s
    by_cases hsel : gets_selected s e = true
    · have hstep : (∃ t, call_handler env s.g_handler e s = Except.ok t ∧ SameControl s t ∧
            (Tracked s → Tracked t)) ∨
          (∃ r, call_handler env s.g_handler e s =
              Except.error (free_and_exit EXIT_FAILURE r) ∧
            SameControl s r ∧ (Tracked s → Tracked r)) := by
        cases hh : s.g_handler with
        | add_to_display_buffer =>
          rcases add_to_display_buffer_cases env e s with ⟨t, h1, h2, h3⟩ | ⟨r, h1, h2, _, h3, _⟩
          · exact Or.inl ⟨t, h1, h2.sameControl, h3⟩
          · exact Or.inr ⟨r, h1, h2, h3⟩
        | print_name =>
          exact Or.inl ⟨_, rfl, print_name_sameControl e s, fun h => h⟩
      rcases hstep with ⟨t1, h1, hc1, ht1⟩ | ⟨r, h1, hc1, ht1⟩
      · rcases ih t1 with ⟨t, h2, hc2, ht2⟩ | ⟨r, h2, hc2, ht2⟩
        · left
          refine ⟨t, ?_, sameControl_trans hc1 hc2, fun h => ht2 (ht1 h)⟩
          simp only [read_entries_loop, hsel, if_true, h1, bind, Except.bind]
          exact h2
        · right
          refine ⟨r, ?_, sameControl_trans hc1 hc2, fun h => ht2 (ht1 h)⟩
          simp only [read_entries_loop, hsel, if_true, h1, bind, Except.bind]
          exact h2
      · right
        refine ⟨r, ?_, hc1, ht1⟩
        simp only [read_entries_loop, hsel, if_true, h1, bind, Except.bind]
    · rcases ih s with ⟨t, h2, hc2, ht2⟩ | ⟨r, h2, hc2, ht2⟩
      · left
        refine ⟨t, ?_, hc2, ht2⟩
        simp only [read_entries_loop, hsel]
        exact h2
      · right
        refine ⟨r, ?_, hc2, ht2⟩
        simp only [read_entries_loop, hsel]
        exact h2

theorem call_printer_eq (p : Printer) (entry : dirent) (s : State) :
    call_printer p entry s = { s with stdout := s.stdout ++ [line entry] } := by
  cases p
  rfl

theorem display_loop_stdout : ∀ (k i : Nat) (s : State),
    ∃ out, display_loop k i s = { s with stdout := out } := by
  intro k
  induction k with
  | zero => intro i s; exact ⟨s.stdout, rfl⟩
  | succ k ih =>
    intro i s
    rw [display_loop, call_printer_eq]
    obtain ⟨out, h⟩ := ih (i + 1)
      { s with stdout := s.stdout ++ [line (s.heap.getD i zero_dirent)] }
    exact ⟨out, h⟩

/-- In any state `display_buffered_entries` changes at most the cells of the
block and the standard output. -/
theorem display_buffered_entries_frame (env : Env) (s : State) :
    ∃ cells out, display_buffered_entries env s = { s with heap := cells, stdout := out } := by
  unfold display_buffered_entries
  by_cases h : s.g_display_buffer.isSome = true
  · rw [if_pos h]
    obtain ⟨out, hout⟩ := display_loop_stdout s.g_num_entries_in_buffer 0
      { s with heap := (env.qsort.sort compare_entries
          (s.heap.take s.g_num_entries_in_buffer) ++ s.heap.drop s.g_num_entries_in_buffer) }
    exact ⟨_, out, hout⟩
  · rw [if_neg h]
    exact ⟨s.heap, s.stdout, rfl⟩

/-- The release events of `free_and_exit`, and what it leaves alone. -/
theorem free_and_exit_trace (status_code : Int) (s : State) :
    (free_and_exit status_code s).state.trace =
      s.trace ++ [Event.free_resources] ++
        (match s.g_resources.directory with
          | some d => [Event.closedir d]
          | none => []) ++ frees s.g_resources.display_buffer ∧
    (free_and_exit status_code s).state.g_display_buffer = s.g_display_buffer ∧
    (free_and_exit status_code s).state.g_resources = s.g_resources := by
  unfold free_and_exit free_resources frees
  cases hd : s.g_resources.directory <;> cases hb : s.g_resources.display_buffer <;>
    simp [hd, hb]

/-- When the loop of `parse_args` ends the process, it has released nothing and
holds no resource it did not hold before. -/
theorem parse_args_loop_error_state (diag : Nat → List Char) (argv : List (List Char))
    (opts : List Char) :
    ∀ (i : Nat) (s : State) (h : Halt), parse_args_loop diag argv i opts s = Except.error h →
      h.state.trace = s.trace ∧ h.state.g_resources = s.g_resources ∧
      h.state.g_display_buffer = s.g_display_buffer := by
  induction opts with
  | nil =>
    intro i s h hrun
    cases hrun
  | cons c rest ih =>
    intro i s h hrun
    rw [parse_args_loop] at hrun
    by_cases ha : c = 'a'
    · rw [if_pos ha] at hrun
      have hrec := ih _ _ h hrun
      exact hrec
    · rw [if_neg ha] at hrun
      by_cases hh : c = 'h'
      · rw [if_pos hh] at hrun
        cases hrun
        exact ⟨rfl, rfl, rfl⟩
      · rw [if_neg hh] at hrun
        by_cases hn : c = 'n'
        · rw [if_pos hn] at hrun
          have hrec := ih _ _ h hrun
          exact hrec
        · rw [if_neg hn] at hrun
          by_cases hu : c = 'u'
          · rw [if_pos hu] at hrun
            have hrec := ih _ _ h hrun
            exact hrec
          · rw [if_neg hu] at hrun
            cases hrun
            exact ⟨rfl, rfl, rfl⟩

theorem finish_args_error_state (argc : Int) (argv : List (List Char)) (optind : Int)
    (s : State) (h : Halt) (hrun : finish_args argc argv optind s = Except.error h) :
    h = fail_with_usage_msg argv s := by
  unfold finish_args at hrun
  by_cases h1 : optind = argc - 1
  · simp only [if_pos h1, bind, Except.bind, pure, Except.pure] at hrun
    cases hrun
  · by_cases h2 : optind < argc
    · simp only [if_neg h1, if_pos h2, bind, Except.bind, throw, throwThe,
        MonadExceptOf.throw] at hrun
      exact (Except.error.inj hrun).symm
    · simp only [if_neg h1, if_neg h2, bind, Except.bind, pure, Except.pure] at hrun
      cases hrun

/-- When `parse_args` ends the process from the start state, no release event
has happened and no resource is held. -/
theorem parse_args_error_state (env : Env) (argc : Int) (argv : List (List Char)) (h : Halt)
    (hrun : parse_args env argc argv State.start = Except.error h) :
    h.state.trace = [] ∧ h.state.g_resources = ⟨none, none⟩ ∧
      h.state.g_display_buffer = none := by
  unfold parse_args at hrun
  by_cases hopts : ∀ c ∈ (env.getopt argc argv).1, c = 'a' ∨ c = 'n' ∨ c = 'u'
  · have hloop := parse_args_loop_ok (env.getopt_diag argc argv) argv _ 0 State.start hopts
    simp only [hloop, bind, Except.bind] at hrun
    rw [finish_args_error_state argc _ _ _ h hrun]
    exact ⟨rfl, rfl, rfl⟩
  · obtain ⟨e, he⟩ := parse_args_loop_error (env.getopt_diag argc argv) argv _ 0
      State.start hopts
    simp only [he, bind, Except.bind] at hrun
    have hh : e = h := Except.error.inj hrun
    subst hh
    exact parse_args_loop_error_state (env.getopt_diag argc argv) argv _ 0 State.start e he

theorem main_of_parse_error (env : Env) (argc : Int) (argv : List (List Char)) (h : Halt)
    (hrun : parse_args env argc argv State.start = Except.error h) :
    main env argc argv = h := by
  unfold main
  rw [hrun]

/-- The run of `main` once the arguments are parsed and the directory is open:
it ends through `free_and_exit`, after the display when the enumeration returns
and with the failure status when it does not; up to then nothing is released
besides the directory on the way to the display. -/
theorem main_cases (env : Env) (argc : Int) (argv : List (List Char)) (cfg : State) (d : DIR)
    (hcfg : parse_args env argc argv State.start = Except.ok cfg)
    (hopen : env.opendir cfg.g_directory_name = Except.ok d) :
    (∃ t, main env argc argv =
        free_and_exit EXIT_SUCCESS (display_buffered_entries env (close_directory d t)) ∧
      t.trace = [] ∧ Tracked t) ∨
    (∃ r, main env argc argv = free_and_exit EXIT_FAILURE r ∧
      r.trace = [] ∧ r.g_resources.directory = some d.handle ∧ Tracked r) := by
  obtain ⟨_, _, hc⟩ := (parse_args_start env argc argv cfg).1 hcfg
  have htrace : cfg.trace = [] := congrArg _ hc
  have htr : cfg.g_resources.display_buffer = cfg.g_display_buffer := by
    rw [hc]
    rfl
  rcases read_entries_loop_cases env d.entries
      { cfg with g_resources := { cfg.g_resources with directory := some d.handle } } with
    ⟨t, hread, hctl, htk⟩ | ⟨r, hread, hctl, htk⟩
  · left
    exact ⟨t, main_eq env argc argv cfg t d hcfg hopen hread, hctl.1.trans htrace, htk htr⟩
  · right
    refine ⟨r, ?_, hctl.1.trans htrace, hctl.2.1, htk htr⟩
    unfold main
    simp only [hcfg, open_directory_ok env _ cfg d hopen, read_entries, hread]

theorem main_of_open_error (env : Env) (argc : Int) (argv : List (List Char)) (cfg : State)
    (errnum : Nat)
    (hcfg : parse_args env argc argv State.start = Except.ok cfg)
    (hopen : env.opendir cfg.g_directory_name = Except.error errnum) :
    main env argc argv = free_and_exit EXIT_FAILURE
      { cfg with
        g_resources := { cfg.g_resources with directory := none }
        stderr := cfg.stderr ++ [env.strerror errnum ++ [LF]] } := by
  unfold main
  simp only [hcfg, open_directory, hopen]

/-- The claim C14 as stated fails: the run with `-h`, the run with an unknown
flag and the run with two positional arguments all end without a call of
`free_resources`. -/
theorem usage_paths_skip_free_resources :
    Event.free_resources ∉
      (main (sample_env ['h'] 2 sample_dir) 2 ["ls".toList, "-h".toList]).state.trace ∧
    (main (sample_env ['h'] 2 sample_dir) 2 ["ls".toList, "-h".toList]).status =
      EXIT_SUCCESS ∧
    Event.free_resources ∉
      (main (sample_env ['?'] 2 sample_dir) 2 ["ls".toList, "-x".toList]).state.trace ∧
    (main (sample_env ['?'] 2 sample_dir) 2 ["ls".toList, "-x".toList]).status =
      EXIT_FAILURE ∧
    Event.free_resources ∉
      (main (sample_env [] 1 sample_dir) 3
        ["ls".toList, "x".toList, "y".toList]).state.trace ∧
    (main (sample_env [] 1 sample_dir) 3 ["ls".toList, "x".toList, "y".toList]).status =
      EXIT_FAILURE := by
  decide

/-- C14 (amended): every run in which `parse_args` returns ends through
`free_and_exit`, so `free_resources` is called, once, as the last thing before
the exit: on the failure to open the directory, on the allocation and overflow
failures, and on success. A run that ends inside `parse_args` (the `-h` path and
the usage errors) ends by a direct `exit`, without `free_resources`, with no
release event and no resource held. -/
theorem exit_through_free_resources (env : Env) (argc : Int) (argv : List (List Char)) :
    (∀ cfg, parse_args env argc argv State.start = Except.ok cfg →
      (∃ status s, main env argc argv = free_and_exit status s ∧
        Event.free_resources ∉ s.trace) ∧
      (main env argc argv).state.trace.count Event.free_resources = 1) ∧
    (∀ h, parse_args env argc argv State.start = Except.error h →
      main env argc argv = h ∧ h.state.trace = [] ∧
      h.state.g_resources = ⟨none, none⟩ ∧ h.state.g_display_buffer = none) := by
  constructor
  · intro cfg hcfg
    have hkey : ∃ status s, main env argc argv = free_and_exit status s ∧
        Event.free_resources ∉ s.trace := by
      cases hopen : env.opendir cfg.g_directory_name with
      | error errnum =>
        obtain ⟨_, _, hc⟩ := (parse_args_start env argc argv cfg).1 hcfg
        have htrace : cfg.trace = [] := congrArg _ hc
        refine ⟨_, _, main_of_open_error env argc argv cfg errnum hcfg hopen, ?_⟩
        show Event.free_resources ∉ cfg.trace
        rw [htrace]
        exact List.not_mem_nil _
      | ok d =>
        rcases main_cases env argc argv cfg d hcfg hopen with ⟨t, hm, ht, _⟩ | ⟨r, hm, hr, _⟩
        · refine ⟨_, _, hm, ?_⟩
          obtain ⟨cells, out, hd⟩ := display_buffered_entries_frame env (close_directory d t)
          rw [hd]
          show Event.free_resources ∉ t.trace ++ [Event.closedir d.handle]
          rw [ht]
          simp
        · refine ⟨_, _, hm, ?_⟩
          rw [hr]
          exact List.not_mem_nil _
    refine ⟨hkey, ?_⟩
    obtain ⟨status, s, hm, hs⟩ := hkey
    rw [hm, (free_and_exit_trace status s).1]
    have h0 : s.trace.count Event.free_resources = 0 := List.count_eq_zero_of_not_mem hs
    simp only [List.count_append, h0]
    cases s.g_resources.directory <;> cases s.g_resources.display_buffer <;>
      simp [frees]
  · intro h hrun
    exact ⟨main_of_parse_error env argc argv h hrun,
      parse_args_error_state env argc argv h hrun⟩

/-- C17: on every run in which the directory is opened, `closedir` is called on
its handle exactly once and on nothing else: by `close_directory` on the way to
the display when the enumeration returns (then `free_resources` finds the slot
cleared), and by `free_resources` when the enumeration ends in an allocation or
overflow failure. The block of the display buffer is freed exactly once when
the run ends with a block allocated, and `free` is called on nothing else. -/
theorem resources_released_once (env : Env) (argc : Int) (argv : List (List Char))
    (cfg : State) (d : DIR)
    (hcfg : parse_args env argc argv State.start = Except.ok cfg)
    (hopen : env.opendir cfg.g_directory_name = Except.ok d) :
    (((main env argc argv).status = EXIT_SUCCESS ∧
        (main env argc argv).state.trace =
          [Event.closedir d.handle, Event.free_resources] ++
            frees (main env argc argv).state.g_display_buffer) ∨
      ((main env argc argv).status = EXIT_FAILURE ∧
        (main env argc argv).state.trace =
          [Event.free_resources, Event.closedir d.handle] ++
            frees (main env argc argv).state.g_display_buffer)) ∧
    (main env argc argv).state.trace.count (Event.closedir d.handle) = 1 ∧
    (∀ h, Event.closedir h ∈ (main env argc argv).state.trace → h = d.handle) ∧
    (∀ p, (main env argc argv).state.trace.count (Event.free p) =
      if (main env argc argv).state.g_display_buffer = some p then 1 else 0) := by
  have hshape : ((main env argc argv).status = EXIT_SUCCESS ∧
        (main env argc argv).state.trace =
          [Event.closedir d.handle, Event.free_resources] ++
            frees (main env argc argv).state.g_display_buffer) ∨
      ((main env argc argv).status = EXIT_FAILURE ∧
        (main env argc argv).state.trace =
          [Event.free_resources, Event.closedir d.handle] ++
            frees (main env argc argv).state.g_display_buffer) := by
    rcases main_cases env argc argv cfg d hcfg hopen with ⟨t, hm, ht, htk⟩ | ⟨r, hm, hr, hd, htk⟩
    · left
      obtain ⟨cells, out, hdisp⟩ := display_buffered_entries_frame env (close_directory d t)
      rw [hm, hdisp]
      refine ⟨rfl, ?_⟩
      rw [(free_and_exit_trace _ _).1, (free_and_exit_trace _ _).2.1]
      show (t.trace ++ [Event.closedir d.handle]) ++ [Event.free_resources] ++ [] ++
        frees t.g_resources.display_buffer = _
      rw [ht, htk]
      rfl
    · right
      rw [hm]
      refine ⟨rfl, ?_⟩
      rw [(free_and_exit_trace _ _).1, (free_and_exit_trace _ _).2.1, hr, hd, htk]
      rfl
  refine ⟨hshape, ?_, ?_, ?_⟩
  · rcases hshape with ⟨_, h⟩ | ⟨_, h⟩ <;> rw [h] <;>
      cases (main env argc argv).state.g_display_buffer <;> simp [frees]
  · intro h hmem
    rcases hshape with ⟨_, ht⟩ | ⟨_, ht⟩ <;> rw [ht] at hmem <;>
      cases hb : (main env argc argv).state.g_display_buffer <;>
      simp [frees, hb] at hmem <;> exact hmem
  · intro p
    rcases hshape with ⟨_, ht⟩ | ⟨_, ht⟩ <;> rw [ht] <;>
      cases hb : (main env argc argv).state.g_display_buffer <;>
      simp [frees, List.count_cons, List.count_nil]

theorem resources_released_once_witness :
    (main (sample_env_limited 8 [] 1 nine_entries) 1 ["ls".toList]).state.trace.count
      (Event.closedir 3) = 1 :=
  (resources_released_once (sample_env_limited 8 [] 1 nine_entries) 1 ["ls".toList]
    (configured false false false CWD_SHORT) ⟨3, nine_entries⟩ rfl rfl).2.1

theorem display_buffered_entries_of_none (env : Env) (s : State)
    (h : s.g_display_buffer = none) : display_buffered_entries env s = s := by
  unfold display_buffered_entries
  rw [if_neg (by rw [h]; simp)]

/-- C18: in any state without a block `display_buffered_entries` returns the
state unchanged (nothing printed, nothing sorted, no error). When no entry is
appended in a run (the `-u` mode, or no entry of the directory is selected), the
enumeration returns with no block allocated and the count 0, the display is
that no-op, and the run exits through `free_and_exit` with the success status. -/
theorem display_without_buffer_is_noop (env : Env) (argc : Int) (argv : List (List Char))
    (cfg : State) (d : DIR)
    (hcfg : parse_args env argc argv State.start = Except.ok cfg)
    (hopen : env.opendir cfg.g_directory_name = Except.ok d)
    (hempty : 'u' ∈ (env.getopt argc argv).1 ∨ d.entries.filter (gets_selected cfg) = []) :
    (∀ s : State, s.g_display_buffer = none → display_buffered_entries env s = s) ∧
    (main env argc argv).status = EXIT_SUCCESS ∧
    (main env argc argv).state.stderr = [] ∧
    ∃ s t, open_directory env cfg.g_directory_name cfg = Except.ok (d, s) ∧
      read_entries env d s = Except.ok t ∧
      t.g_display_buffer = none ∧ t.g_num_entries_in_buffer = 0 ∧
      display_buffered_entries env (close_directory d t) = close_directory d t ∧
      main env argc argv = free_and_exit EXIT_SUCCESS (close_directory d t) := by
  refine ⟨display_buffered_entries_of_none env, ?_⟩
  obtain ⟨_, _, hc⟩ := (parse_args_start env argc argv cfg).1 hcfg
  have hflag := (parse_args_flags env argc argv cfg hcfg).2.2
  have hbuf : cfg.g_display_buffer = none := congrArg _ hc
  have hnum : cfg.g_num_entries_in_buffer = 0 := congrArg _ hc
  have herr : cfg.stderr = [] := congrArg _ hc
  have hsel : gets_selected
      { cfg with g_resources := { cfg.g_resources with directory := some d.handle } } =
      gets_selected cfg := gets_selected_congr _ _ rfl rfl
  have hfin : ∀ t : State,
      read_entries_loop env d.entries
        { cfg with g_resources := { cfg.g_resources with directory := some d.handle } } =
        Except.ok t →
      t.g_display_buffer = none → t.g_num_entries_in_buffer = 0 → t.stderr = [] →
      (main env argc argv).status = EXIT_SUCCESS ∧
      (main env argc argv).state.stderr = [] ∧
      ∃ s t, open_directory env cfg.g_directory_name cfg = Except.ok (d, s) ∧
        read_entries env d s = Except.ok t ∧
        t.g_display_buffer = none ∧ t.g_num_entries_in_buffer = 0 ∧
        display_buffered_entries env (close_directory d t) = close_directory d t ∧
        main env argc argv = free_and_exit EXIT_SUCCESS (close_directory d t) := by
    intro t hread hb hn he
    have hdisp : display_buffered_entries env (close_directory d t) = close_directory d t :=
      display_buffered_entries_of_none env _ hb
    have hmain := main_eq env argc argv cfg t d hcfg hopen hread
    rw [hdisp] at hmain
    refine ⟨?_, ?_, _, t, open_directory_ok env _ cfg d hopen, hread, hb, hn, hdisp, hmain⟩
    · rw [hmain]
      rfl
    · rw [hmain]
      show (free_resources (close_directory d t)).stderr = []
      have : ∀ s : State, (free_resources s).stderr = s.stderr := by
        intro s
        dsimp only [free_resources]
        split <;> split <;> rfl
      rw [this]
      exact he
  by_cases hu : 'u' ∈ (env.getopt argc argv).1
  · have hu1 : decide ('u' ∈ (env.getopt argc argv).1) = true := decide_eq_true hu
    have hh : cfg.g_handler = Handler.print_name := by
      rw [hc]
      show (if decide ('u' ∈ (env.getopt argc argv).1) = true then Handler.print_name
        else Handler.add_to_display_buffer) = _
      rw [hu1]
      rfl
    exact hfin _ (read_entries_loop_unordered env d.entries
      { cfg with g_resources := { cfg.g_resources with directory := some d.handle } } hh)
      hbuf hnum herr
  · have hnil : d.entries.filter (gets_selected cfg) = [] := by
      rcases hempty with h | h
      · exact absurd h hu
      · exact h
    have hu1 : decide ('u' ∈ (env.getopt argc argv).1) = false := decide_eq_false hu
    have hh : cfg.g_handler = Handler.add_to_display_buffer := by
      rw [hc]
      show (if decide ('u' ∈ (env.getopt argc argv).1) = true then Handler.print_name
        else Handler.add_to_display_buffer) = _
      rw [hu1]
      rfl
    have hinv : BufInv env
        { cfg with g_resources := { cfg.g_resources with directory := some d.handle } } [] :=
      ⟨hnum, fun _ => rfl, fun h => absurd hbuf h⟩
    obtain ⟨t, hread, hinvt, hsame⟩ := read_entries_loop_buffered env d.entries
      { cfg with g_resources := { cfg.g_resources with directory := some d.handle } } [] hh hinv
      (by
        rw [hsel, hnil]
        intro j hpos
        exact absurd hpos (Nat.lt_irrefl 0))
    rw [hsel, hnil, List.append_nil] at hinvt
    obtain ⟨hn, _, hsome⟩ := hinvt
    have hb : t.g_display_buffer = none := by
      by_contra h
      exact (hsome h).1 rfl
    exact hfin t hread hb hn (hsame.stderr.trans herr)

theorem display_without_buffer_is_noop_witness :
    (main (sample_env ['n'] 2 [⟨".".toList⟩, ⟨"..".toList⟩]) 2
      ["ls".toList, "-n".toList]).status = EXIT_SUCCESS :=
  (display_without_buffer_is_noop (sample_env ['n'] 2 [⟨".".toList⟩, ⟨"..".toList⟩]) 2
    ["ls".toList, "-n".toList] (configured false true false CWD_SHORT)
    ⟨3, [⟨".".toList⟩, ⟨"..".toList⟩]⟩ rfl rfl (Or.inr (by decide))).2.1

theorem c_str_eq_nil_iff (s : List Char) : c_str s = [] ↔ char_at s 0 = NUL := by
  cases s with
  | nil => simp [c_str_nil, char_at_nil]
  | cons a r =>
    rw [c_str_cons, char_at_cons_zero]
    by_cases h : a = NUL
    · simp [h]
    · simp [h]

theorem strcasecmp_nil_left (b : List Char) :
    strcasecmp [] b = 0 ↔ c_str b = [] := by
  rw [c_str_eq_nil_iff, ← tolower_eq_zero_iff]
  simp only [strcasecmp, tolower_NUL]
  omega

/-- The comparison is 0 exactly when the two C strings are equal after case
folding. -/
theorem strcasecmp_eq_zero_iff (a : List Char) :
    ∀ b, strcasecmp a b = 0 ↔ (c_str a).map tolower = (c_str b).map tolower := by
  induction a with
  | nil =>
    intro b
    rw [strcasecmp_nil_left, c_str_nil, List.map_nil]
    constructor
    · intro h; rw [h]; rfl
    · intro h
      exact List.map_eq_nil_iff.1 h.symm
  | cons x xs ih =>
    intro b
    by_cases hx : x = NUL
    · have h0 : tolower x = 0 := (tolower_eq_zero_iff x).2 hx
      have hs : strcasecmp (x :: xs) b = strcasecmp [] b := by
        simp only [strcasecmp, h0, if_true, tolower_NUL]
      rw [hs, strcasecmp_nil_left, c_str_cons, if_pos hx, List.map_nil]
      constructor
      · intro h; rw [h]; rfl
      · intro h
        exact List.map_eq_nil_iff.1 h.symm
    · have h0 : ¬ tolower x = 0 := fun h => hx ((tolower_eq_zero_iff x).1 h)
      rw [c_str_cons, if_neg hx, List.map_cons]
      cases b with
      | nil =>
        simp only [strcasecmp, char_at_nil, tolower_NUL, h0, if_false, c_str_nil, List.map_nil]
        constructor
        · intro h
          omega
        · intro h
          cases h
      | cons y ys =>
        simp only [strcasecmp, char_at_cons_zero, h0, if_false, List.tail_cons]
        by_cases hxy : tolower x = tolower y
        · have hy : y ≠ NUL := fun hy => h0 (by rw [hxy]; exact (tolower_eq_zero_iff y).2 hy)
          rw [if_pos hxy, c_str_cons, if_neg hy, List.map_cons, ih ys, hxy]
          constructor
          · intro h; rw [h]
          · intro h
            exact (List.cons.inj h).2
        · rw [if_neg hxy]
          constructor
          · intro h
            omega
          · intro h
            rw [c_str_cons] at h
            by_cases hy : y = NUL
            · rw [if_pos hy] at h
              cases h
            · rw [if_neg hy, List.map_cons] at h
              exact absurd (List.cons.inj h).1 hxy

/-- C16: `compare_entries` is a consistent comparator: swapping the arguments
negates the result (so the signs are opposite), the relation `≤ 0` is
transitive, and the result is 0 exactly when the two names are equal after
ASCII case folding. -/
theorem compare_entries_is_consistent (a b c : dirent) :
    compare_entries b a = - compare_entries a b ∧
    (compare_entries b a).sign = - (compare_entries a b).sign ∧
    (compare_entries a b ≤ 0 → compare_entries b c ≤ 0 → compare_entries a c ≤ 0) ∧
    (compare_entries a b = 0 ↔ folded a = folded b) := by
  have hswap : compare_entries b a = - compare_entries a b :=
    strcasecmp_swap a.d_name b.d_name
  refine ⟨hswap, ?_, strcasecmp_trans a.d_name b.d_name c.d_name,
    strcasecmp_eq_zero_iff a.d_name b.d_name⟩
  rw [hswap, Int.sign_neg]

/-- C19: for two runs without `-u` that see the same flags, whose directory
streams are permutations of each other, in which no allocation fails and no two
selected entries have the same name after ASCII case folding, the sequences of
lines printed are equal, whatever the two enumeration orders and whatever
`qsort` does. -/
theorem buffered_output_independent_of_order (env1 env2 : Env) (argc : Int)
    (argv : List (List Char)) (cfg1 cfg2 : State) (d1 d2 : DIR)
    (hcfg1 : parse_args env1 argc argv State.start = Except.ok cfg1)
    (hcfg2 : parse_args env2 argc argv State.start = Except.ok cfg2)
    (hflags : (env1.getopt argc argv).1 = (env2.getopt argc argv).1)
    (hu : 'u' ∉ (env1.getopt argc argv).1)
    (hopen1 : env1.opendir cfg1.g_directory_name = Except.ok d1)
    (hopen2 : env2.opendir cfg2.g_directory_name = Except.ok d2)
    (hperm : d1.entries.Perm d2.entries)
    (hties : ((d1.entries.filter (gets_selected cfg1)).map folded).Nodup)
    (halloc1 : NoAllocFailure env1 (d1.entries.filter (gets_selected cfg1)).length)
    (halloc2 : NoAllocFailure env2 (d1.entries.filter (gets_selected cfg1)).length) :
    (main env1 argc argv).state.stdout = (main env2 argc argv).state.stdout := by
  have hsel : gets_selected cfg2 = gets_selected cfg1 := by
    funext e
    rw [gets_selected_parse_args env1 argc argv cfg1 hcfg1 e,
      gets_selected_parse_args env2 argc argv cfg2 hcfg2 e, hflags]
  have hu1 : cfg1.opt_unordered = false := by
    rw [(parse_args_flags env1 argc argv cfg1 hcfg1).2.2]
    exact decide_eq_false hu
  have hu2 : cfg2.opt_unordered = false := by
    rw [(parse_args_flags env2 argc argv cfg2 hcfg2).2.2, ← hflags]
    exact decide_eq_false hu
  have hpsel : (d1.entries.filter (gets_selected cfg1)).Perm
      (d2.entries.filter (gets_selected cfg2)) := by
    rw [hsel]
    exact hperm.filter _
  have hN2 : NoAllocFailure env2 (d2.entries.filter (gets_selected cfg2)).length := by
    rw [← hpsel.length_eq]
    exact halloc2
  rw [(main_buffered env1 argc argv cfg1 d1 hcfg1 hu1 hopen1 halloc1).2,
    (main_buffered env2 argc argv cfg2 d2 hcfg2 hu2 hopen2 hN2).2]
  have hs1 := env1.qsort.perm compare_entries (d1.entries.filter (gets_selected cfg1))
  have hs2 := env2.qsort.perm compare_entries (d2.entries.filter (gets_selected cfg2))
  apply eq_of_perm_of_pairwise (fun x y => compare_entries ⟨x.dropLast⟩ ⟨y.dropLast⟩ ≤ 0)
  · exact ((hs1.trans hpsel).trans hs2.symm).map line
  · rw [List.pairwise_map]
    refine (env1.qsort.sorted compare_entries compare_entries_consistent _).imp ?_
    intro a b hab
    rw [compare_entries_line]
    exact hab
  · rw [List.pairwise_map]
    refine (env2.qsort.sorted compare_entries compare_entries_consistent _).imp ?_
    intro a b hab
    rw [compare_entries_line]
    exact hab
  · intro x hx y hy hxy hyx
    obtain ⟨a, ha, rfl⟩ := List.mem_map.1 hx
    obtain ⟨b, hb, rfl⟩ := List.mem_map.1 hy
    rw [compare_entries_line] at hxy hyx
    have hswap : compare_entries b a = - compare_entries a b :=
      strcasecmp_swap a.d_name b.d_name
    have hzero : compare_entries a b = 0 := by omega
    have hfold : folded a = folded b := (strcasecmp_eq_zero_iff a.d_name b.d_name).1 hzero
    have hab : a = b := List.inj_on_of_nodup_map hties (hs1.subset ha) (hs1.subset hb) hfold
    rw [hab]

theorem buffered_output_independent_of_order_witness :
    (main (sample_env [] 1 sample_dir) 1 ["ls".toList]).state.stdout =
      (main (sample_env [] 1 sample_dir.reverse) 1 ["ls".toList]).state.stdout :=
  buffered_output_independent_of_order (sample_env [] 1 sample_dir)
    (sample_env [] 1 sample_dir.reverse) 1 ["ls".toList]
    (configured false false false CWD_SHORT) (configured false false false CWD_SHORT)
    ⟨3, sample_dir⟩ ⟨3, sample_dir.reverse⟩ rfl rfl rfl (by decide) rfl rfl
    (List.reverse_perm sample_dir).symm (by decide)
    (sample_env_no_alloc_failure _ _ _ _ (by decide))
    (sample_env_no_alloc_failure _ _ _ _ (by decide))

end Ls
